import Mathlib

/-!
Verification of the worktree-manager relocation and persistence subsystem.

The Go sources are embedded shallowly:
* branch-name sanitization (`cmd/switch.go`, `sanitizeBranchName`) and the
  inline directory-name computation of the checkout command;
* the `switch` state machine (`cmd/switch.go`) over a slot-level filesystem
  (a set of directory paths) together with an oracle for the external git
  operations;
* the persist/restore engine (`persist.go` / `restore.go` material) over a
  rooted filesystem tree of files, directories and symbolic links.

Strings are modelled as `List Char` where the Go code iterates over runes,
and paths as `List String` of components (the Go code only ever joins and
splits on the separator).  Machine-level concerns (io errors, umask on
directory modes, following of symbolic links by `os.Stat`/`os.Open`) are
noted at the definitions they would affect; no claim depends on them.
-/

/-! ### Name sanitization -/

/-- `sanitizeBranchName` from `cmd/switch.go`: walk the runes of the name and
replace every `'/'` by `'-'`, keeping every other rune unchanged. -/
def sanitizeBranchName : List Char → List Char
  | [] => []
  | c :: rest => (if c = '/' then '-' else c) :: sanitizeBranchName rest

/-- String-level wrapper of `sanitizeBranchName`. -/
def sanitizeBranchNameS (s : String) : String :=
  ⟨sanitizeBranchName s.data⟩

/-- Go's `filepath.Base` on a unix system: empty path gives `"."`; otherwise
trailing separators are stripped, everything up to the last separator is
dropped, and an all-separator path gives `"/"`. -/
def filepathBase (path : List Char) : List Char :=
  if path = [] then ['.']
  else
    let r := path.reverse.dropWhile (fun c => c == '/')
    let last := (r.takeWhile (fun c => c != '/')).reverse
    if last = [] then ['/'] else last

/-- The inline directory-name computation of the checkout command
(`checkoutCmd`): keep the identifier when it equals its own `filepath.Base`,
otherwise replace every `'/'` with `'-'` (the replacement loop is rune for
rune the body of `sanitizeBranchName`). -/
def checkoutDirName (commitish : List Char) : List Char :=
  let dirName := filepathBase commitish
  if commitish = dirName then dirName else sanitizeBranchName commitish

theorem sanitizeBranchName_eq_map (x : List Char) :
    sanitizeBranchName x = x.map (fun c => if c = '/' then '-' else c) := by
  induction x with
  | nil => rfl
  | cons c rest ih => simp [sanitizeBranchName, ih]

theorem sanitizeBranchName_no_slash (x : List Char) :
    ∀ c ∈ sanitizeBranchName x, c ≠ '/' := by
  induction x with
  | nil => intro c hc; simp [sanitizeBranchName] at hc
  | cons a rest ih =>
    intro c hc
    simp only [sanitizeBranchName, List.mem_cons] at hc
    rcases hc with hc | hc
    · subst hc
      by_cases ha : a = '/' <;> simp [ha]
    · exact ih c hc

theorem sanitizeBranchName_id_of_no_slash (x : List Char)
    (h : ∀ c ∈ x, c ≠ '/') : sanitizeBranchName x = x := by
  induction x with
  | nil => rfl
  | cons a rest ih =>
    have ha : a ≠ '/' := h a (List.mem_cons_self a rest)
    simp only [sanitizeBranchName, if_neg ha, List.cons.injEq, true_and]
    exact ih (fun c hc => h c (List.mem_cons_of_mem a hc))

theorem sanitizeBranchName_idem (x : List Char) :
    sanitizeBranchName (sanitizeBranchName x) = sanitizeBranchName x :=
  sanitizeBranchName_id_of_no_slash _ (sanitizeBranchName_no_slash x)

/-- C8: `sanitizeBranchName` is a pure total function that replaces every
path separator of its input with a dash and does nothing else (it is exactly
the rune-wise map), it sends `"bugfix/critical/issue-123"` to
`"bugfix-critical-issue-123"` and fixes `"master"`, and it is idempotent on
every input. -/
theorem C8_sanitize_spec (x : List Char) :
    sanitizeBranchName x = x.map (fun c => if c = '/' then '-' else c)
    ∧ sanitizeBranchName (sanitizeBranchName x) = sanitizeBranchName x
    ∧ sanitizeBranchNameS "bugfix/critical/issue-123" = "bugfix-critical-issue-123"
    ∧ sanitizeBranchNameS "master" = "master" :=
  ⟨sanitizeBranchName_eq_map x, sanitizeBranchName_idem x, by decide, by decide⟩

theorem filepathBase_slash_mem (s : List Char) (h : '/' ∈ filepathBase s) :
    filepathBase s = ['/'] := by
  unfold filepathBase at h ⊢
  by_cases hs : s = []
  · simp [hs] at h
  · simp only [if_neg hs] at h ⊢
    by_cases hl : ((s.reverse.dropWhile (fun c => c == '/')).takeWhile
        (fun c => c != '/')).reverse = []
    · simp [hl]
    · simp only [if_neg hl] at h ⊢
      rw [List.mem_reverse] at h
      have := List.mem_takeWhile_imp h
      simp at this

/-- C9 counterexample: at the identifier `"/"` the checkout command keeps the
identifier (it equals its own `filepath.Base`) while `sanitizeBranchName`
turns it into `"-"`. -/
theorem C9_counterexample : checkoutDirName ['/'] ≠ sanitizeBranchName ['/'] := by
  decide

/-- C9 (amended): for every identifier other than the single-separator string
`"/"`, the directory name computed inline by the checkout command equals
`sanitizeBranchName` of the identifier. -/
theorem C9_checkout_refines_sanitize (s : List Char) (h : s ≠ ['/']) :
    checkoutDirName s = sanitizeBranchName s := by
  unfold checkoutDirName
  by_cases hb : s = filepathBase s
  · simp only [if_pos hb]
    have hns : ∀ c ∈ s, c ≠ '/' := by
      intro c hc hcs
      subst hcs
      have hmem : '/' ∈ filepathBase s := hb ▸ hc
      have := filepathBase_slash_mem s hmem
      exact h (hb.trans this)
    rw [← hb, sanitizeBranchName_id_of_no_slash s hns]
  · simp only [if_neg hb]

theorem C9_witness :
    "feature/new".data ≠ ['/']
    ∧ checkoutDirName "feature/new".data = sanitizeBranchName "feature/new".data :=
  ⟨by decide, C9_checkout_refines_sanitize "feature/new".data (by decide)⟩

/-! ### The switch state machine (`cmd/switch.go`)

The filesystem is modelled at slot granularity: the set of directory paths
(component lists relative to the bare repository root) that currently exist.
The external git service is an oracle (`GitEnv`) saying which calls succeed;
a failed `git worktree move` and a failed `os.Rename` leave the filesystem
unchanged, a successful one moves the slot.  Every performed mutation is
recorded in a trace of `Act`ions. -/

abbrev SlotPath := List String

/-- The active workspace slot, `workspace/`. -/
def wsPath : SlotPath := ["workspace"]

/-- The parking area, `tree/`. -/
def treePath : SlotPath := ["tree"]

/-- A parked slot `tree/<name>`. -/
def treeSlot (n : String) : SlotPath := ["tree", n]

abbrev SlotFS := List SlotPath

def listHas (fs : SlotFS) (p : SlotPath) : Bool := decide (p ∈ fs)

def insertPath (fs : SlotFS) (p : SlotPath) : SlotFS :=
  if p ∈ fs then fs else p :: fs

def erasePath (fs : SlotFS) (p : SlotPath) : SlotFS :=
  fs.filter (fun q => q ≠ p)

/-- Effect on the slot filesystem of moving a directory. -/
def fsMove (fs : SlotFS) (s d : SlotPath) : SlotFS :=
  insertPath (erasePath fs s) d

deriving instance DecidableEq for Except

/-- Oracle for the ambient process state and the external git service, as
consumed by `switchCmd`: result of `detectLocation`, of `os.Chdir`, of
`getCurrentBranch` on the workspace, and success of `os.MkdirAll`,
`git worktree move`, `os.Rename`, `git worktree repair` and
`git worktree add`. -/
structure GitEnv where
  location : Except String String
  chdirOk : Bool
  branchOf : Except Unit String
  mkdirOk : Bool
  gitMoveOk : SlotPath → SlotPath → Bool
  renameOk : SlotPath → SlotPath → Bool
  repairOk : Bool
  addOk : Bool

/-- Filesystem-mutating (or registry-mutating) calls performed by `switch`. -/
inductive Act where
  | mkdirTree
  | gitMove (src dst : SlotPath)
  | rename (src dst : SlotPath)
  | repair
  | create (target : String) (dst : SlotPath)
  deriving DecidableEq

inductive MoveErr where
  | renameFailed
  | repairFailed
  deriving DecidableEq

inductive SwitchErr where
  | notInRepo (msg : String)
  | chdirFailed
  | branchQueryFailed
  | mkdirFailed
  | detachedHead
  | parkedSlotExists (name : String)
  | vacateMove (e : MoveErr)
  | occupyMove (name : String) (e : MoveErr)
  | createFailed
  deriving DecidableEq

/-- `moveWorktree` from `cmd/switch.go`: try `git worktree move`; on failure
fall back to `os.Rename` followed by `git worktree repair`.  A repair failure
after a successful rename is the flagged "moved directory but failed to
repair git metadata" error. -/
def moveWorktree (env : GitEnv) (source destination : SlotPath) (fs : SlotFS) :
    Except MoveErr Unit × SlotFS × List Act :=
  if env.gitMoveOk source destination then
    (Except.ok (), fsMove fs source destination, [Act.gitMove source destination])
  else if env.renameOk source destination then
    if env.repairOk then
      (Except.ok (), fsMove fs source destination,
        [Act.rename source destination, Act.repair])
    else
      (Except.error MoveErr.repairFailed, fsMove fs source destination,
        [Act.rename source destination])
  else
    (Except.error MoveErr.renameFailed, fs, [])

/-- Steps 1-3 of `switchCmd` (`cmd/switch.go` lines 40-92): detect location,
chdir to the bare root, stat the workspace and query its branch, create
`tree/`, and—when the workspace exists—vacate it into `tree/<sanitized>`.
The branch query precedes the `MkdirAll` exactly as in the source. -/
def vacatePhase (env : GitEnv) (fs : SlotFS) :
    Except SwitchErr Unit × SlotFS × List Act :=
  match env.location with
  | Except.error e => (Except.error (SwitchErr.notInRepo e), fs, [])
  | Except.ok _ =>
    if !env.chdirOk then (Except.error SwitchErr.chdirFailed, fs, [])
    else if listHas fs wsPath then
      match env.branchOf with
      | Except.error _ => (Except.error SwitchErr.branchQueryFailed, fs, [])
      | Except.ok b =>
        if !env.mkdirOk then (Except.error SwitchErr.mkdirFailed, fs, [])
        else
          let acts1 : List Act := if listHas fs treePath then [] else [Act.mkdirTree]
          let fs1 := insertPath fs treePath
          if b = "" then (Except.error SwitchErr.detachedHead, fs1, acts1)
          else
            let slot := treeSlot (sanitizeBranchNameS b)
            if listHas fs1 slot then
              (Except.error (SwitchErr.parkedSlotExists (sanitizeBranchNameS b)), fs1, acts1)
            else
              match moveWorktree env wsPath slot fs1 with
              | (Except.ok _, fs2, acts2) => (Except.ok (), fs2, acts1 ++ acts2)
              | (Except.error e, fs2, acts2) =>
                  (Except.error (SwitchErr.vacateMove e), fs2, acts1 ++ acts2)
    else
      if !env.mkdirOk then (Except.error SwitchErr.mkdirFailed, fs, [])
      else (Except.ok (), insertPath fs treePath,
            if listHas fs treePath then [] else [Act.mkdirTree])

/-- Step 4 of `switchCmd` (lines 94-111): if `tree/<sanitized target>`
exists, move it into the workspace slot; otherwise create a brand-new
worktree checked out to the target at the workspace slot path. -/
def occupyPhase (env : GitEnv) (fs : SlotFS) (target : String) :
    Except SwitchErr Unit × SlotFS × List Act :=
  let slot := treeSlot (sanitizeBranchNameS target)
  if listHas fs slot then
    match moveWorktree env slot wsPath fs with
    | (Except.ok _, fs2, acts) => (Except.ok (), fs2, acts)
    | (Except.error e, fs2, acts) =>
        (Except.error (SwitchErr.occupyMove (sanitizeBranchNameS target) e), fs2, acts)
  else
    if env.addOk then (Except.ok (), insertPath fs wsPath, [Act.create target wsPath])
    else (Except.error SwitchErr.createFailed, fs, [])

/-- The whole `switchCmd` run: the vacating phase, then—only if it
succeeded—the occupying phase. -/
def switchRun (env : GitEnv) (fs : SlotFS) (target : String) :
    Except SwitchErr Unit × SlotFS × List Act :=
  match vacatePhase env fs with
  | (Except.ok _, fs1, acts1) =>
    match occupyPhase env fs1 target with
    | (r, fs2, acts2) => (r, fs2, acts1 ++ acts2)
  | (Except.error e, fs1, acts1) => (Except.error e, fs1, acts1)

def isMove : Act → Bool
  | Act.gitMove _ _ => true
  | Act.rename _ _ => true
  | _ => false

/-- The one flagged urgent error: a repair failed after a successful rename
("moved directory but failed to repair git metadata"). -/
def isRepairFlag : SwitchErr → Bool
  | SwitchErr.vacateMove MoveErr.repairFailed => true
  | SwitchErr.occupyMove _ MoveErr.repairFailed => true
  | _ => false

def errFlag : Except SwitchErr Unit → Bool
  | Except.error e => isRepairFlag e
  | Except.ok _ => false

theorem listHas_iff {fs : SlotFS} {p : SlotPath} : listHas fs p = true ↔ p ∈ fs := by
  simp [listHas]

theorem listHas_insert_self (fs : SlotFS) (p : SlotPath) :
    listHas (insertPath fs p) p = true := by
  by_cases h : p ∈ fs <;> simp [insertPath, listHas, h]

theorem listHas_erase_self (fs : SlotFS) (p : SlotPath) :
    listHas (erasePath fs p) p = false := by
  simp [erasePath, listHas]

theorem listHas_insert_ne (fs : SlotFS) {p q : SlotPath} (h : q ≠ p) :
    listHas (insertPath fs p) q = listHas fs q := by
  by_cases hm : p ∈ fs <;> simp [insertPath, listHas, hm, h]

theorem listHas_erase_ne (fs : SlotFS) {p q : SlotPath} (h : q ≠ p) :
    listHas (erasePath fs p) q = listHas fs q := by
  simp [erasePath, listHas, h]

theorem wsPath_ne_treeSlot (n : String) : wsPath ≠ treeSlot n := by
  simp [wsPath, treeSlot]

theorem treeSlot_ne_wsPath (n : String) : treeSlot n ≠ wsPath := by
  simp [wsPath, treeSlot]

theorem listHas_fsMove_dst (fs : SlotFS) (s d : SlotPath) :
    listHas (fsMove fs s d) d = true :=
  listHas_insert_self _ _

theorem listHas_fsMove_src (fs : SlotFS) {s d : SlotPath} (h : s ≠ d) :
    listHas (fsMove fs s d) s = false := by
  rw [fsMove, listHas_insert_ne _ h, listHas_erase_self]

theorem move_cases (env : GitEnv) (s d : SlotPath) (fs : SlotFS) :
    moveWorktree env s d fs = (Except.ok (), fsMove fs s d, [Act.gitMove s d])
    ∨ moveWorktree env s d fs
        = (Except.ok (), fsMove fs s d, [Act.rename s d, Act.repair])
    ∨ moveWorktree env s d fs
        = (Except.error MoveErr.repairFailed, fsMove fs s d, [Act.rename s d])
    ∨ moveWorktree env s d fs = (Except.error MoveErr.renameFailed, fs, []) := by
  unfold moveWorktree
  by_cases h1 : env.gitMoveOk s d
  · simp [h1]
  · by_cases h2 : env.renameOk s d
    · by_cases h3 : env.repairOk <;> simp [h1, h2, h3]
    · simp [h1, h2]

theorem occupy_cases (env : GitEnv) (fs : SlotFS) (target : String) :
    (listHas fs (treeSlot (sanitizeBranchNameS target)) = true
      ∧ (occupyPhase env fs target
          = (Except.ok (), fsMove fs (treeSlot (sanitizeBranchNameS target)) wsPath,
             [Act.gitMove (treeSlot (sanitizeBranchNameS target)) wsPath])
        ∨ occupyPhase env fs target
          = (Except.ok (), fsMove fs (treeSlot (sanitizeBranchNameS target)) wsPath,
             [Act.rename (treeSlot (sanitizeBranchNameS target)) wsPath, Act.repair])
        ∨ occupyPhase env fs target
          = (Except.error (SwitchErr.occupyMove (sanitizeBranchNameS target) MoveErr.repairFailed),
             fsMove fs (treeSlot (sanitizeBranchNameS target)) wsPath,
             [Act.rename (treeSlot (sanitizeBranchNameS target)) wsPath])
        ∨ occupyPhase env fs target
          = (Except.error (SwitchErr.occupyMove (sanitizeBranchNameS target) MoveErr.renameFailed),
             fs, [])))
    ∨ (listHas fs (treeSlot (sanitizeBranchNameS target)) = false
      ∧ (occupyPhase env fs target
          = (Except.ok (), insertPath fs wsPath, [Act.create target wsPath])
        ∨ occupyPhase env fs target = (Except.error SwitchErr.createFailed, fs, []))) := by
  by_cases hslot : listHas fs (treeSlot (sanitizeBranchNameS target)) = true
  · left
    refine ⟨hslot, ?_⟩
    rcases move_cases env (treeSlot (sanitizeBranchNameS target)) wsPath fs with
      hm | hm | hm | hm <;> simp [occupyPhase, hslot, hm]
  · right
    rw [Bool.not_eq_true] at hslot
    refine ⟨hslot, ?_⟩
    by_cases hadd : env.addOk <;> simp [occupyPhase, hslot, hadd]


theorem vacate_cases (env : GitEnv) (fs : SlotFS) :
    ((∃ e, (vacatePhase env fs).1 = Except.error e ∧ isRepairFlag e = false)
      ∧ (∀ a ∈ (vacatePhase env fs).2.2, isMove a = false)
      ∧ ((vacatePhase env fs).2.1 = fs
          ∨ (vacatePhase env fs).2.1 = insertPath fs treePath))
    ∨ ((vacatePhase env fs).1 = Except.error (SwitchErr.vacateMove MoveErr.repairFailed)
      ∧ ∃ b, Act.rename wsPath (treeSlot b) ∈ (vacatePhase env fs).2.2)
    ∨ ((vacatePhase env fs).1 = Except.ok ()
      ∧ (vacatePhase env fs).2.1 = insertPath fs treePath
      ∧ (∀ a ∈ (vacatePhase env fs).2.2, isMove a = false))
    ∨ ((vacatePhase env fs).1 = Except.ok ()
      ∧ ∃ b, (Act.gitMove wsPath (treeSlot b) ∈ (vacatePhase env fs).2.2
              ∨ Act.rename wsPath (treeSlot b) ∈ (vacatePhase env fs).2.2)
           ∧ listHas (vacatePhase env fs).2.1 wsPath = false) := by
  rcases hloc : env.location with e | l
  · have hv : vacatePhase env fs = (Except.error (SwitchErr.notInRepo e), fs, []) := by
      unfold vacatePhase; simp [hloc]
    exact Or.inl ⟨⟨SwitchErr.notInRepo e, by simp [hv], rfl⟩, by simp [hv],
      Or.inl (by simp [hv])⟩
  · cases hc : env.chdirOk
    · have hv : vacatePhase env fs = (Except.error SwitchErr.chdirFailed, fs, []) := by
        unfold vacatePhase; simp [hloc, hc]
      exact Or.inl ⟨⟨SwitchErr.chdirFailed, by simp [hv], rfl⟩, by simp [hv],
        Or.inl (by simp [hv])⟩
    · cases hws : listHas fs wsPath
      · cases hmk : env.mkdirOk
        · have hv : vacatePhase env fs = (Except.error SwitchErr.mkdirFailed, fs, []) := by
            unfold vacatePhase; simp [hloc, hc, hws, hmk]
          exact Or.inl ⟨⟨SwitchErr.mkdirFailed, by simp [hv], rfl⟩, by simp [hv],
            Or.inl (by simp [hv])⟩
        · have hv : vacatePhase env fs = (Except.ok (), insertPath fs treePath,
              if listHas fs treePath then [] else [Act.mkdirTree]) := by
            unfold vacatePhase; simp [hloc, hc, hws, hmk]
          refine Or.inr (Or.inr (Or.inl ⟨by simp [hv], by simp [hv], ?_⟩))
          rw [hv]
          by_cases ht : listHas fs treePath <;> simp [ht, isMove]
      · rcases hbr : env.branchOf with u | b
        · have hv : vacatePhase env fs
              = (Except.error SwitchErr.branchQueryFailed, fs, []) := by
            unfold vacatePhase; simp [hloc, hc, hws, hbr]
          exact Or.inl ⟨⟨SwitchErr.branchQueryFailed, by simp [hv], rfl⟩, by simp [hv],
            Or.inl (by simp [hv])⟩
        · cases hmk : env.mkdirOk
          · have hv : vacatePhase env fs = (Except.error SwitchErr.mkdirFailed, fs, []) := by
              unfold vacatePhase; simp [hloc, hc, hws, hbr, hmk]
            exact Or.inl ⟨⟨SwitchErr.mkdirFailed, by simp [hv], rfl⟩, by simp [hv],
              Or.inl (by simp [hv])⟩
          · by_cases hb : b = ""
            · have hv : vacatePhase env fs = (Except.error SwitchErr.detachedHead,
                  insertPath fs treePath,
                  if listHas fs treePath then [] else [Act.mkdirTree]) := by
                unfold vacatePhase; simp [hloc, hc, hws, hbr, hmk, hb]
              refine Or.inl ⟨⟨SwitchErr.detachedHead, by simp [hv], rfl⟩, ?_,
                Or.inr (by simp [hv])⟩
              rw [hv]
              by_cases ht : listHas fs treePath <;> simp [ht, isMove]
            · cases hcol : listHas (insertPath fs treePath) (treeSlot (sanitizeBranchNameS b))
              · rcases move_cases env wsPath (treeSlot (sanitizeBranchNameS b))
                  (insertPath fs treePath) with hm | hm | hm | hm
                · have hv : vacatePhase env fs = (Except.ok (),
                      fsMove (insertPath fs treePath) wsPath (treeSlot (sanitizeBranchNameS b)),
                      (if listHas fs treePath then [] else [Act.mkdirTree])
                        ++ [Act.gitMove wsPath (treeSlot (sanitizeBranchNameS b))]) := by
                    unfold vacatePhase; simp [hloc, hc, hws, hbr, hmk, hb, hcol, hm]
                  refine Or.inr (Or.inr (Or.inr ⟨by simp [hv], sanitizeBranchNameS b,
                    Or.inl ?_, ?_⟩))
                  · rw [hv]; simp
                  · rw [hv]
                    exact listHas_fsMove_src _ (wsPath_ne_treeSlot _)
                · have hv : vacatePhase env fs = (Except.ok (),
                      fsMove (insertPath fs treePath) wsPath (treeSlot (sanitizeBranchNameS b)),
                      (if listHas fs treePath then [] else [Act.mkdirTree])
                        ++ [Act.rename wsPath (treeSlot (sanitizeBranchNameS b)), Act.repair]) := by
                    unfold vacatePhase; simp [hloc, hc, hws, hbr, hmk, hb, hcol, hm]
                  refine Or.inr (Or.inr (Or.inr ⟨by simp [hv], sanitizeBranchNameS b,
                    Or.inr ?_, ?_⟩))
                  · rw [hv]; simp
                  · rw [hv]
                    exact listHas_fsMove_src _ (wsPath_ne_treeSlot _)
                · have hv : vacatePhase env fs
                      = (Except.error (SwitchErr.vacateMove MoveErr.repairFailed),
                      fsMove (insertPath fs treePath) wsPath (treeSlot (sanitizeBranchNameS b)),
                      (if listHas fs treePath then [] else [Act.mkdirTree])
                        ++ [Act.rename wsPath (treeSlot (sanitizeBranchNameS b))]) := by
                    unfold vacatePhase; simp [hloc, hc, hws, hbr, hmk, hb, hcol, hm]
                  refine Or.inr (Or.inl ⟨by simp [hv], sanitizeBranchNameS b, ?_⟩)
                  rw [hv]; simp
                · have hv : vacatePhase env fs
                      = (Except.error (SwitchErr.vacateMove MoveErr.renameFailed),
                      insertPath fs treePath,
                      (if listHas fs treePath then [] else [Act.mkdirTree]) ++ []) := by
                    unfold vacatePhase; simp [hloc, hc, hws, hbr, hmk, hb, hcol, hm]
                  refine Or.inl ⟨⟨SwitchErr.vacateMove MoveErr.renameFailed,
                    by simp [hv], rfl⟩, ?_, Or.inr (by simp [hv])⟩
                  rw [hv]
                  by_cases ht : listHas fs treePath <;> simp [ht, isMove]
              · have hv : vacatePhase env fs
                    = (Except.error (SwitchErr.parkedSlotExists (sanitizeBranchNameS b)),
                    insertPath fs treePath,
                    if listHas fs treePath then [] else [Act.mkdirTree]) := by
                  unfold vacatePhase; simp [hloc, hc, hws, hbr, hmk, hb, hcol]
                refine Or.inl ⟨⟨SwitchErr.parkedSlotExists (sanitizeBranchNameS b),
                  by simp [hv], rfl⟩, ?_, Or.inr (by simp [hv])⟩
                rw [hv]
                by_cases ht : listHas fs treePath <;> simp [ht, isMove]


theorem vacate_act_shapes (env : GitEnv) (fs : SlotFS) :
    ∀ a ∈ (vacatePhase env fs).2.2,
      a = Act.mkdirTree ∨ a = Act.repair
      ∨ ∃ b, a = Act.gitMove wsPath (treeSlot b) ∨ a = Act.rename wsPath (treeSlot b) := by
  rcases hloc : env.location with e | l
  · unfold vacatePhase; simp [hloc]
  · cases hc : env.chdirOk
    · unfold vacatePhase; simp [hloc, hc]
    · cases hws : listHas fs wsPath
      · cases hmk : env.mkdirOk
        · unfold vacatePhase; simp [hloc, hc, hws, hmk]
        · unfold vacatePhase
          by_cases ht : listHas fs treePath <;> simp [hloc, hc, hws, hmk, ht]
      · rcases hbr : env.branchOf with u | b
        · unfold vacatePhase; simp [hloc, hc, hws, hbr]
        · cases hmk : env.mkdirOk
          · unfold vacatePhase; simp [hloc, hc, hws, hbr, hmk]
          · by_cases hb : b = ""
            · unfold vacatePhase
              by_cases ht : listHas fs treePath <;> simp [hloc, hc, hws, hbr, hmk, hb, ht]
            · cases hcol : listHas (insertPath fs treePath) (treeSlot (sanitizeBranchNameS b))
              · rcases move_cases env wsPath (treeSlot (sanitizeBranchNameS b))
                  (insertPath fs treePath) with hm | hm | hm | hm
                · unfold vacatePhase
                  intro a ha
                  by_cases ht : listHas fs treePath <;>
                    simp only [hloc, hc, hws, hbr, hmk, hb, hcol, hm, ht] at ha <;>
                    simp at ha
                  · exact Or.inr (Or.inr ⟨sanitizeBranchNameS b, Or.inl ha⟩)
                  · rcases ha with ha | ha
                    · exact Or.inl ha
                    · exact Or.inr (Or.inr ⟨sanitizeBranchNameS b, Or.inl ha⟩)
                · unfold vacatePhase
                  intro a ha
                  by_cases ht : listHas fs treePath <;>
                    simp only [hloc, hc, hws, hbr, hmk, hb, hcol, hm, ht] at ha <;>
                    simp at ha
                  · rcases ha with ha | ha
                    · exact Or.inr (Or.inr ⟨sanitizeBranchNameS b, Or.inr ha⟩)
                    · exact Or.inr (Or.inl ha)
                  · rcases ha with ha | ha | ha
                    · exact Or.inl ha
                    · exact Or.inr (Or.inr ⟨sanitizeBranchNameS b, Or.inr ha⟩)
                    · exact Or.inr (Or.inl ha)
                · unfold vacatePhase
                  intro a ha
                  by_cases ht : listHas fs treePath <;>
                    simp only [hloc, hc, hws, hbr, hmk, hb, hcol, hm, ht] at ha <;>
                    simp at ha
                  · exact Or.inr (Or.inr ⟨sanitizeBranchNameS b, Or.inr ha⟩)
                  · rcases ha with ha | ha
                    · exact Or.inl ha
                    · exact Or.inr (Or.inr ⟨sanitizeBranchNameS b, Or.inr ha⟩)
                · unfold vacatePhase
                  intro a ha
                  by_cases ht : listHas fs treePath <;>
                    simp only [hloc, hc, hws, hbr, hmk, hb, hcol, hm, ht] at ha <;>
                    simp at ha
                  · exact Or.inl ha
              · unfold vacatePhase
                by_cases ht : listHas fs treePath <;>
                  simp [hloc, hc, hws, hbr, hmk, hb, hcol, ht]
/-- The occupying-phase contract of C1, as a predicate on a switch result:
if `tree/<sanitized target>` exists at occupy time the worktree is moved (no
create call is ever made, and on success the parked slot has been relocated
into the workspace slot); otherwise no move into the workspace slot happens
and success means a brand-new worktree was created there. -/
def C1PropOn (res : Except SwitchErr Unit × SlotFS × List Act)
    (fs1 : SlotFS) (target : String) : Prop :=
  (listHas fs1 (treeSlot (sanitizeBranchNameS target)) = true →
     (∀ t d, Act.create t d ∉ res.2.2)
     ∧ (res.1 = Except.ok () →
          (Act.gitMove (treeSlot (sanitizeBranchNameS target)) wsPath ∈ res.2.2
            ∨ Act.rename (treeSlot (sanitizeBranchNameS target)) wsPath ∈ res.2.2)
          ∧ listHas res.2.1 wsPath = true
          ∧ listHas res.2.1 (treeSlot (sanitizeBranchNameS target)) = false))
  ∧ (listHas fs1 (treeSlot (sanitizeBranchNameS target)) = false →
     (∀ s, Act.gitMove s wsPath ∉ res.2.2 ∧ Act.rename s wsPath ∉ res.2.2)
     ∧ (res.1 = Except.ok () →
          Act.create target wsPath ∈ res.2.2 ∧ listHas res.2.1 wsPath = true))

/-- C1: whenever a `switch(target)` invocation reaches the occupying phase
(the vacating phase returned success, leaving filesystem `fs1`), then: if a
parked slot named with the sanitized target exists under `tree/`, the run
relocates it into the workspace slot with the move primitive and never calls
the create primitive; otherwise a brand-new worktree for the target is
created directly at the workspace slot path and nothing is moved into the
workspace slot. -/
theorem C1_occupying_phase (env : GitEnv) (fs fs1 : SlotFS) (t1 : List Act)
    (target : String)
    (h : vacatePhase env fs = (Except.ok (), fs1, t1)) :
    C1PropOn (switchRun env fs target) fs1 target := by
  have hshapes := vacate_act_shapes env fs
  rw [h] at hshapes
  have hrun : switchRun env fs target
      = ((occupyPhase env fs1 target).1, (occupyPhase env fs1 target).2.1,
         t1 ++ (occupyPhase env fs1 target).2.2) := by
    unfold switchRun
    rw [h]
  have hnoc : ∀ t d, Act.create t d ∉ t1 := by
    intro t d hmem
    have := hshapes _ hmem
    simp at this
  have hnomv : ∀ s, Act.gitMove s wsPath ∉ t1 ∧ Act.rename s wsPath ∉ t1 := by
    intro s
    constructor <;> intro hmem <;> have hsh := hshapes _ hmem <;>
      simp [wsPath, treeSlot] at hsh
  rcases occupy_cases env fs1 target with ⟨hslot, ho⟩ | ⟨hslot, ho⟩
  · constructor
    · intro _
      rcases ho with ho | ho | ho | ho <;> rw [ho] at hrun
      · refine ⟨?_, ?_⟩
        · intro t d hmem
          rw [hrun] at hmem
          rcases List.mem_append.mp hmem with hmem | hmem
          · exact hnoc t d hmem
          · simp at hmem
        · intro _
          refine ⟨Or.inl (by rw [hrun]; simp), ?_, ?_⟩
          · rw [hrun]
            exact listHas_fsMove_dst _ _ _
          · rw [hrun]
            exact listHas_fsMove_src _ (treeSlot_ne_wsPath _)
      · refine ⟨?_, ?_⟩
        · intro t d hmem
          rw [hrun] at hmem
          rcases List.mem_append.mp hmem with hmem | hmem
          · exact hnoc t d hmem
          · simp at hmem
        · intro _
          refine ⟨Or.inr (by rw [hrun]; simp), ?_, ?_⟩
          · rw [hrun]
            exact listHas_fsMove_dst _ _ _
          · rw [hrun]
            exact listHas_fsMove_src _ (treeSlot_ne_wsPath _)
      · refine ⟨?_, ?_⟩
        · intro t d hmem
          rw [hrun] at hmem
          rcases List.mem_append.mp hmem with hmem | hmem
          · exact hnoc t d hmem
          · simp at hmem
        · intro hok
          rw [hrun] at hok
          simp at hok
      · refine ⟨?_, ?_⟩
        · intro t d hmem
          rw [hrun] at hmem
          rcases List.mem_append.mp hmem with hmem | hmem
          · exact hnoc t d hmem
          · simp at hmem
        · intro hok
          rw [hrun] at hok
          simp at hok
    · intro hf
      rw [hf] at hslot
      cases hslot
  · constructor
    · intro ht
      rw [ht] at hslot
      cases hslot
    · intro _
      rcases ho with ho | ho <;> rw [ho] at hrun
      · refine ⟨?_, ?_⟩
        · intro s
          constructor <;> intro hmem <;> rw [hrun] at hmem
          · rcases List.mem_append.mp hmem with hmem | hmem
            · exact (hnomv s).1 hmem
            · simp at hmem
          · rcases List.mem_append.mp hmem with hmem | hmem
            · exact (hnomv s).2 hmem
            · simp [wsPath] at hmem
        · intro _
          refine ⟨by rw [hrun]; simp, ?_⟩
          rw [hrun]
          exact listHas_insert_self _ _
      · refine ⟨?_, ?_⟩
        · intro s
          constructor <;> intro hmem <;> rw [hrun] at hmem
          · rcases List.mem_append.mp hmem with hmem | hmem
            · exact (hnomv s).1 hmem
            · simp at hmem
          · rcases List.mem_append.mp hmem with hmem | hmem
            · exact (hnomv s).2 hmem
            · simp at hmem
        · intro hok
          rw [hrun] at hok
          simp at hok

/-- A concrete all-succeeding environment used to witness C1. -/
def envA : GitEnv :=
  { location := Except.ok "bare-root", chdirOk := true, branchOf := Except.ok "main",
    mkdirOk := true, gitMoveOk := fun _ _ => true, renameOk := fun _ _ => true,
    repairOk := true, addOk := true }

def fsA : SlotFS := [["workspace"]]

theorem C1_witness :
    vacatePhase envA fsA
      = (Except.ok (), [["tree", "main"], ["tree"]],
         [Act.mkdirTree, Act.gitMove wsPath (treeSlot "main")])
    ∧ C1PropOn (switchRun envA fsA "main") [["tree", "main"], ["tree"]] "main" :=
  ⟨by decide, C1_occupying_phase envA fsA [["tree", "main"], ["tree"]]
    [Act.mkdirTree, Act.gitMove wsPath (treeSlot "main")] "main" (by decide)⟩

/-- The amended terminal-state trichotomy (now four cases) of C2, as a
predicate on a switch result together with the starting filesystem:
success with the workspace slot populated; the flagged repair-failure after
a successful rename; a clean failure with no move performed and the
filesystem unchanged except possibly for creation of the empty `tree/`
directory; or an occupying-step failure after the previous occupant was
already parked, leaving the workspace slot empty. -/
def C2CasesOn (res : Except SwitchErr Unit × SlotFS × List Act) (fs : SlotFS) : Prop :=
  (res.1 = Except.ok () ∧ listHas res.2.1 wsPath = true)
  ∨ (∃ e, res.1 = Except.error e ∧ isRepairFlag e = true
      ∧ ∃ s d, Act.rename s d ∈ res.2.2)
  ∨ (∃ e, res.1 = Except.error e ∧ isRepairFlag e = false
      ∧ (∀ a ∈ res.2.2, isMove a = false)
      ∧ (res.2.1 = fs ∨ res.2.1 = insertPath fs treePath))
  ∨ ((res.1 = Except.error SwitchErr.createFailed
        ∨ ∃ n, res.1 = Except.error (SwitchErr.occupyMove n MoveErr.renameFailed))
      ∧ listHas res.2.1 wsPath = false
      ∧ ∃ b, Act.gitMove wsPath (treeSlot b) ∈ res.2.2
           ∨ Act.rename wsPath (treeSlot b) ∈ res.2.2)

/-- C2 (amended): every switch invocation terminates in exactly one of the
four states described by `C2CasesOn`.  Compared with the claim, a fourth
state is added for occupying-step failures after a successful vacating move,
and the clean-failure state tolerates creation of the empty `tree/`
directory. -/
theorem C2_terminal_states (env : GitEnv) (fs : SlotFS) (target : String) :
    C2CasesOn (switchRun env fs target) fs := by
  have hcv := vacate_cases env fs
  rcases hv : vacatePhase env fs with ⟨r1, fs1, t1⟩
  rw [hv] at hcv
  rcases r1 with e1 | u1
  · have hrun : switchRun env fs target = (Except.error e1, fs1, t1) := by
      unfold switchRun; rw [hv]
    rcases hcv with ⟨⟨e, he, hef⟩, hnm, hfs⟩ | ⟨he, b, hb⟩ | ⟨he, _, _⟩ | ⟨he, _⟩
    · simp only [] at he
      refine Or.inr (Or.inr (Or.inl ⟨e1, by simp [hrun], ?_, ?_, ?_⟩))
      · have : e1 = e := by
          have := he
          simp at this
          exact this
        rw [this]; exact hef
      · rw [hrun]; exact hnm
      · rw [hrun]; exact hfs
    · have he1 : e1 = SwitchErr.vacateMove MoveErr.repairFailed := by
        simpa using he
      refine Or.inr (Or.inl ⟨e1, by simp [hrun], by rw [he1]; rfl,
        wsPath, treeSlot b, ?_⟩)
      rw [hrun]; exact hb
    · simp at he
    · simp at he
  · cases u1
    have hrun : switchRun env fs target
        = ((occupyPhase env fs1 target).1, (occupyPhase env fs1 target).2.1,
           t1 ++ (occupyPhase env fs1 target).2.2) := by
      unfold switchRun; rw [hv]
    rcases hcv with ⟨⟨e, he, _⟩, _, _⟩ | ⟨he, _⟩ | ⟨_, hfs1, hnm⟩ | ⟨_, b, hbmem, hws1⟩
    · simp at he
    · simp at he
    · -- vacating did not move anything (or the workspace was absent)
      rcases occupy_cases env fs1 target with ⟨hslot, ho⟩ | ⟨hslot, ho⟩
      · rcases ho with ho | ho | ho | ho <;> rw [ho] at hrun
        · exact Or.inl ⟨by simp [hrun], by rw [hrun]; exact listHas_fsMove_dst _ _ _⟩
        · exact Or.inl ⟨by simp [hrun], by rw [hrun]; exact listHas_fsMove_dst _ _ _⟩
        · refine Or.inr (Or.inl ⟨SwitchErr.occupyMove (sanitizeBranchNameS target)
            MoveErr.repairFailed, by simp [hrun], rfl,
            treeSlot (sanitizeBranchNameS target), wsPath, ?_⟩)
          rw [hrun]; simp
        · refine Or.inr (Or.inr (Or.inl ⟨SwitchErr.occupyMove (sanitizeBranchNameS target)
            MoveErr.renameFailed, by simp [hrun], rfl, ?_, ?_⟩))
          · rw [hrun]
            intro a ha
            rcases List.mem_append.mp ha with ha | ha
            · exact hnm a ha
            · simp at ha
          · rw [hrun]
            exact Or.inr hfs1
      · rcases ho with ho | ho <;> rw [ho] at hrun
        · exact Or.inl ⟨by simp [hrun], by rw [hrun]; exact listHas_insert_self _ _⟩
        · refine Or.inr (Or.inr (Or.inl ⟨SwitchErr.createFailed,
            by simp [hrun], rfl, ?_, ?_⟩))
          · rw [hrun]
            intro a ha
            rcases List.mem_append.mp ha with ha | ha
            · exact hnm a ha
            · simp at ha
          · rw [hrun]
            exact Or.inr hfs1
    · -- the vacating phase moved the previous occupant into tree/<branch>
      rcases occupy_cases env fs1 target with ⟨hslot, ho⟩ | ⟨hslot, ho⟩
      · rcases ho with ho | ho | ho | ho <;> rw [ho] at hrun
        · exact Or.inl ⟨by simp [hrun], by rw [hrun]; exact listHas_fsMove_dst _ _ _⟩
        · exact Or.inl ⟨by simp [hrun], by rw [hrun]; exact listHas_fsMove_dst _ _ _⟩
        · refine Or.inr (Or.inl ⟨SwitchErr.occupyMove (sanitizeBranchNameS target)
            MoveErr.repairFailed, by simp [hrun], rfl,
            treeSlot (sanitizeBranchNameS target), wsPath, ?_⟩)
          rw [hrun]; simp
        · refine Or.inr (Or.inr (Or.inr ⟨Or.inr ⟨sanitizeBranchNameS target,
            by simp [hrun]⟩, by rw [hrun]; exact hws1, b, ?_⟩))
          rcases hbmem with hbm | hbm
          · exact Or.inl (by rw [hrun]; exact List.mem_append_left _ hbm)
          · exact Or.inr (by rw [hrun]; exact List.mem_append_left _ hbm)
      · rcases ho with ho | ho <;> rw [ho] at hrun
        · exact Or.inl ⟨by simp [hrun], by rw [hrun]; exact listHas_insert_self _ _⟩
        · refine Or.inr (Or.inr (Or.inr ⟨Or.inl (by simp [hrun]),
            by rw [hrun]; exact hws1, b, ?_⟩))
          rcases hbmem with hbm | hbm
          · exact Or.inl (by rw [hrun]; exact List.mem_append_left _ hbm)
          · exact Or.inr (by rw [hrun]; exact List.mem_append_left _ hbm)

/-- The original C2 trichotomy (weakened on the success side, which only
strengthens the refutation): a switch run ends in success, or flagged
repair-failure, or with the filesystem exactly as it was. -/
def C2Orig (env : GitEnv) (fs : SlotFS) (target : String) : Prop :=
  (switchRun env fs target).1 = Except.ok ()
  ∨ errFlag (switchRun env fs target).1 = true
  ∨ (switchRun env fs target).2.1 = fs

/-- Environment for the C2 counterexample: everything succeeds except
`git worktree move` (forcing the rename+repair fallback, which succeeds)
and `git worktree add` (which fails). -/
def envB : GitEnv :=
  { location := Except.ok "bare-root", chdirOk := true, branchOf := Except.ok "main",
    mkdirOk := true, gitMoveOk := fun _ _ => false, renameOk := fun _ _ => true,
    repairOk := true, addOk := false }

/-- C2 counterexample: with the workspace on `main` and `switch("feature")`
whose `git worktree add` fails, the run ends in an error that is neither the
flagged repair failure nor a clean no-change failure: the workspace was
already vacated into `tree/main`, so the filesystem did change. -/
theorem C2_counterexample : ¬ C2Orig envB [["workspace"]] "feature" := by
  unfold C2Orig
  decide

/-! ### The persist/restore filesystem tree

The persist/restore engine works at file granularity, so here the filesystem
is a rooted tree of nodes.  Paths are component lists from the root; the
bare-repository `shared/` store and each worktree root are subtrees of the
same tree. -/

/-- A filesystem node: a regular file (byte content and permission bits), a
directory (mode and named children), or a symbolic link storing its textual
target (`isAbs` records whether the stored target is an absolute path). -/
inductive Node where
  | file (content : List Nat) (mode : Nat)
  | dir (mode : Nat) (children : List (String × Node))
  | symlink (isAbs : Bool) (target : List String)

def lookupChild : List (String × Node) → String → Option Node
  | [], _ => none
  | (n, c) :: rest, name => if n = name then some c else lookupChild rest name

def setChild : List (String × Node) → String → Node → List (String × Node)
  | [], name, node => [(name, node)]
  | (n, c) :: rest, name, node =>
      if n = name then (n, node) :: rest else (n, c) :: setChild rest name node

def delChild : List (String × Node) → String → List (String × Node)
  | [], _ => []
  | (n, c) :: rest, name =>
      if n = name then delChild rest name else (n, c) :: delChild rest name

/-- Resolve a path to the node stored there.  (`os.Stat` additionally follows
symbolic links; no claim places a symlink on a resolved chain, so plain
presence is the faithful reading here.) -/
def lookup : List String → Node → Option Node
  | [], n => some n
  | c :: rest, Node.dir _ cs =>
      match lookupChild cs c with
      | some child => lookup rest child
      | none => none
  | _ :: _, _ => none

/-- Write a node at a path whose parent chain of directories exists,
replacing whatever entry is at the final component (`os.Create` semantics;
callers that must not overwrite check existence first). -/
def setNode : List String → Node → Node → Option Node
  | [], newNode, _ => some newNode
  | [c], newNode, Node.dir m cs => some (Node.dir m (setChild cs c newNode))
  | c :: rest, newNode, Node.dir m cs =>
      match lookupChild cs c with
      | some child =>
          match setNode rest newNode child with
          | some child2 => some (Node.dir m (setChild cs c child2))
          | none => none
      | none => none
  | _ :: _, _, _ => none

/-- `os.MkdirAll`: create the missing directories along the path with the
given mode; succeed when the whole chain consists of directories, fail when a
non-directory is in the way. -/
def mkdirAll : List String → Nat → Node → Option Node
  | [], _, Node.dir m cs => some (Node.dir m cs)
  | [], _, _ => none
  | c :: rest, perm, Node.dir m cs =>
      match lookupChild cs c with
      | some child =>
          match mkdirAll rest perm child with
          | some child2 => some (Node.dir m (setChild cs c child2))
          | none => none
      | none =>
          match mkdirAll rest perm (Node.dir perm []) with
          | some child2 => some (Node.dir m (setChild cs c child2))
          | none => none
  | _ :: _, _, _ => none

/-- `os.RemoveAll`: recursively delete the entry at the path; removing a
missing path is a no-op. -/
def removeAll : List String → Node → Node
  | [c], Node.dir m cs => Node.dir m (delChild cs c)
  | c :: rest, Node.dir m cs =>
      match lookupChild cs c with
      | some child => Node.dir m (setChild cs c (removeAll rest child))
      | none => Node.dir m cs
  | _, n => n

/-- No symbolic link anywhere in the subtree.  The Go `copyFile` would read
through a symlink source via `os.Open`; the model makes a symlink source a
copy error, so claims about copies carry this hypothesis. -/
def symlinkFree : Node → Bool
  | Node.file _ _ => true
  | Node.symlink _ _ => false
  | Node.dir _ [] => true
  | Node.dir m ((_, c) :: rest) => symlinkFree c && symlinkFree (Node.dir m rest)

/-- What `copyFile`/`copyDir` place at a fresh destination: files keep
content and mode (`copyFile` ends with `Chmod` to the source mode),
directories are recreated with the source mode and their entries copied in
order, and a symlink source is a copy error. -/
def copyTree : Node → Option Node
  | Node.file c m => some (Node.file c m)
  | Node.symlink _ _ => none
  | Node.dir m [] => some (Node.dir m [])
  | Node.dir m ((name, c) :: rest) =>
      match copyTree c, copyTree (Node.dir m rest) with
      | some c2, some (Node.dir _ rest2) => some (Node.dir m ((name, c2) :: rest2))
      | _, _ => none

theorem lookupChild_setChild_self (cs : List (String × Node)) (c : String) (n : Node) :
    lookupChild (setChild cs c n) c = some n := by
  induction cs with
  | nil => simp [setChild, lookupChild]
  | cons e rest ih =>
    rcases e with ⟨a, b⟩
    by_cases h : a = c <;> simp [setChild, lookupChild, h, ih]

theorem lookupChild_setChild_ne (cs : List (String × Node)) {c c' : String}
    (h : c' ≠ c) (n : Node) :
    lookupChild (setChild cs c n) c' = lookupChild cs c' := by
  have h2 : ¬c = c' := fun hh => h hh.symm
  induction cs with
  | nil => simp [setChild, lookupChild, h2]
  | cons e rest ih =>
    rcases e with ⟨a, b⟩
    by_cases ha : a = c
    · subst ha
      simp [setChild, lookupChild, h2]
    · by_cases hac : a = c' <;> simp [setChild, lookupChild, ha, hac, ih, h]

theorem lookupChild_delChild_self (cs : List (String × Node)) (c : String) :
    lookupChild (delChild cs c) c = none := by
  induction cs with
  | nil => simp [delChild, lookupChild]
  | cons e rest ih =>
    rcases e with ⟨a, b⟩
    by_cases h : a = c <;> simp [delChild, lookupChild, h, ih]

theorem lookupChild_delChild_ne (cs : List (String × Node)) {c c' : String}
    (h : c' ≠ c) :
    lookupChild (delChild cs c) c' = lookupChild cs c' := by
  induction cs with
  | nil => simp [delChild, lookupChild]
  | cons e rest ih =>
    rcases e with ⟨a, b⟩
    by_cases ha : a = c
    · subst ha
      have h2 : ¬a = c' := fun hh => h hh.symm
      simp [delChild, lookupChild, h2, ih]
    · by_cases hac : a = c' <;> simp [delChild, lookupChild, ha, hac, ih, h]

theorem setChild_eq_of_lookup {cs : List (String × Node)} {c : String} {n : Node}
    (h : lookupChild cs c = some n) : setChild cs c n = cs := by
  induction cs with
  | nil => simp [lookupChild] at h
  | cons e rest ih =>
    rcases e with ⟨a, b⟩
    by_cases ha : a = c
    · subst ha
      simp [lookupChild] at h
      simp [setChild, h]
    · simp [lookupChild, ha] at h
      simp [setChild, ha, ih h]

theorem lookup_setNode_self :
    ∀ (p : List String) (n fs fs2 : Node), setNode p n fs = some fs2 → p ≠ [] →
      lookup p fs2 = some n
  | [], _, _, _, _, hne => absurd rfl hne
  | [c], n, fs, fs2, h, _ => by
    cases fs with
    | dir m cs =>
      have he : setNode [c] n (Node.dir m cs)
          = some (Node.dir m (setChild cs c n)) := rfl
      rw [he] at h
      injection h with h
      subst h
      simp [lookup, lookupChild_setChild_self]
    | file _ _ => simp [setNode] at h
    | symlink _ _ => simp [setNode] at h
  | c :: d :: rest, n, fs, fs2, h, _ => by
    cases fs with
    | dir m cs =>
      unfold setNode at h
      split at h
      next child hlc =>
        split at h
        next child2 hsn =>
          injection h with h
          subst h
          simp only [lookup, lookupChild_setChild_self]
          exact lookup_setNode_self (d :: rest) n child child2 hsn (by simp)
        next hsn => exact absurd h (by simp)
      next hlc => exact absurd h (by simp)
    | file _ _ => simp [setNode] at h
    | symlink _ _ => simp [setNode] at h

theorem setNode_isSome_of_parent :
    ∀ (p : List String) (n fs : Node) (m : Nat) (cs : List (String × Node)),
      lookup p.dropLast fs = some (Node.dir m cs) → p ≠ [] →
      (setNode p n fs).isSome
  | [], _, _, _, _, _, hne => absurd rfl hne
  | [c], n, fs, m, cs, h, _ => by
    simp only [List.dropLast_single, lookup] at h
    injection h with h
    subst h
    simp [setNode]
  | c :: d :: rest, n, fs, m, cs, h, _ => by
    have hd : (c :: d :: rest).dropLast = c :: (d :: rest).dropLast := rfl
    rw [hd] at h
    cases fs with
    | dir m2 cs2 =>
      unfold lookup at h
      split at h
      next child hlc =>
        have := setNode_isSome_of_parent (d :: rest) n child m cs h (by simp)
        unfold setNode
        rw [hlc]
        cases hsn : setNode (d :: rest) n child with
        | none => rw [hsn] at this; simp at this
        | some child2 => simp [hsn]
      next hlc => exact absurd h (by simp)
    | file _ _ => simp [lookup] at h
    | symlink _ _ => simp [lookup] at h

/-- Two paths diverge: they differ at a component that lies inside both. -/
def diverges : List String → List String → Bool
  | a :: as, b :: bs => if a = b then diverges as bs else true
  | _, _ => false

theorem lookup_setNode_diverge :
    ∀ (p q : List String) (n fs fs2 : Node), diverges p q = true →
      setNode p n fs = some fs2 → lookup q fs2 = lookup q fs
  | [], q, n, fs, fs2, hd, _ => by simp [diverges] at hd
  | _ :: _, [], n, fs, fs2, hd, _ => by simp [diverges] at hd
  | a :: as, b :: bs, n, fs, fs2, hd, h => by
    cases fs with
    | dir m cs =>
      by_cases hab : a = b
      · subst hab
        simp only [diverges, if_pos rfl] at hd
        cases as with
        | nil => simp [diverges] at hd
        | cons a2 as2 =>
          unfold setNode at h
          split at h
          next child hlc =>
            split at h
            next child2 hsn =>
              injection h with h
              subst h
              simp only [lookup, lookupChild_setChild_self, hlc]
              exact lookup_setNode_diverge (a2 :: as2) bs n child child2 hd hsn
            next hsn => exact absurd h (by simp)
          next hlc => exact absurd h (by simp)
      · have hset : ∀ cs2 : List (String × Node),
            fs2 = Node.dir m cs2 → lookupChild cs2 b = lookupChild cs b →
            lookup (b :: bs) fs2 = lookup (b :: bs) (Node.dir m cs) := by
          intro cs2 heq hlc
          subst heq
          simp only [lookup, hlc]
        cases as with
        | nil =>
          have he : setNode [a] n (Node.dir m cs)
              = some (Node.dir m (setChild cs a n)) := rfl
          rw [he] at h
          injection h with h
          exact hset _ h.symm (lookupChild_setChild_ne cs (fun hh => hab hh.symm) n)
        | cons a2 as2 =>
          unfold setNode at h
          split at h
          next child hlc =>
            split at h
            next child2 hsn =>
              injection h with h
              exact hset _ h.symm
                (lookupChild_setChild_ne cs (fun hh => hab hh.symm) child2)
            next hsn => exact absurd h (by simp)
          next hlc => exact absurd h (by simp)
    | file _ _ => cases as <;> simp [setNode] at h
    | symlink _ _ => cases as <;> simp [setNode] at h

theorem lookup_mkdirAll_diverge :
    ∀ (p q : List String) (perm : Nat) (fs fs2 : Node), diverges p q = true →
      mkdirAll p perm fs = some fs2 → lookup q fs2 = lookup q fs
  | [], q, perm, fs, fs2, hd, _ => by simp [diverges] at hd
  | _ :: _, [], perm, fs, fs2, hd, _ => by simp [diverges] at hd
  | a :: as, b :: bs, perm, fs, fs2, hd, h => by
    cases fs with
    | dir m cs =>
      unfold mkdirAll at h
      by_cases hab : a = b
      · subst hab
        simp only [diverges, if_pos rfl] at hd
        split at h
        next child hlc =>
          split at h
          next child2 hmk =>
            injection h with h
            subst h
            simp only [lookup, lookupChild_setChild_self, hlc]
            exact lookup_mkdirAll_diverge as bs perm child child2 hd hmk
          next => exact absurd h (by simp)
        next hlc =>
          split at h
          next child2 hmk =>
            injection h with h
            subst h
            simp only [lookup, lookupChild_setChild_self, hlc]
            have hrec := lookup_mkdirAll_diverge as bs perm (Node.dir perm []) child2 hd hmk
            rw [hrec]
            cases bs with
            | nil => simp [diverges] at hd
            | cons b2 bs2 => simp [lookup, lookupChild]
          next => exact absurd h (by simp)
      · have hset : ∀ cs2 : List (String × Node),
            fs2 = Node.dir m cs2 → lookupChild cs2 b = lookupChild cs b →
            lookup (b :: bs) fs2 = lookup (b :: bs) (Node.dir m cs) := by
          intro cs2 heq hlc
          subst heq
          simp only [lookup, hlc]
        split at h
        next child hlc =>
          split at h
          next child2 hmk =>
            injection h with h
            exact hset _ h.symm
              (lookupChild_setChild_ne cs (fun hh => hab hh.symm) child2)
          next => exact absurd h (by simp)
        next hlc =>
          split at h
          next child2 hmk =>
            injection h with h
            exact hset _ h.symm
              (lookupChild_setChild_ne cs (fun hh => hab hh.symm) child2)
          next => exact absurd h (by simp)
    | file _ _ => simp [mkdirAll] at h
    | symlink _ _ => simp [mkdirAll] at h

theorem lookup_removeAll_diverge :
    ∀ (p q : List String) (fs : Node), diverges p q = true →
      lookup q (removeAll p fs) = lookup q fs
  | [], q, fs, hd => by simp [diverges] at hd
  | _ :: _, [], fs, hd => by simp [diverges] at hd
  | a :: as, b :: bs, fs, hd => by
    cases fs with
    | dir m cs =>
      by_cases hab : a = b
      · subst hab
        simp only [diverges, if_pos rfl] at hd
        cases as with
        | nil => simp [diverges] at hd
        | cons a2 as2 =>
          unfold removeAll
          cases hlc : lookupChild cs a with
          | some child =>
            simp only [lookup, lookupChild_setChild_self, hlc]
            exact lookup_removeAll_diverge (a2 :: as2) bs child hd
          | none => rfl
      · cases as with
        | nil =>
          simp only [removeAll, lookup]
          rw [lookupChild_delChild_ne cs (fun hh => hab hh.symm)]
        | cons a2 as2 =>
          unfold removeAll
          cases hlc : lookupChild cs a with
          | some child =>
            simp only [lookup]
            rw [lookupChild_setChild_ne cs (fun hh => hab hh.symm)]
          | none => rfl
    | file _ _ => cases as <;> rfl
    | symlink _ _ => cases as <;> rfl

theorem lookup_removeAll_self :
    ∀ (p : List String) (fs : Node), p ≠ [] → lookup p (removeAll p fs) = none
  | [], _, hne => absurd rfl hne
  | [c], fs, _ => by
    cases fs with
    | dir m cs => simp [removeAll, lookup, lookupChild_delChild_self]
    | file co mo => simp [removeAll, lookup]
    | symlink a t => simp [removeAll, lookup]
  | c :: d :: rest, fs, _ => by
    cases fs with
    | dir m cs =>
      unfold removeAll
      cases hlc : lookupChild cs c with
      | some child =>
        simp only [lookup, lookupChild_setChild_self, hlc]
        exact lookup_removeAll_self (d :: rest) child (by simp)
      | none => simp [lookup, hlc]
    | file co mo => simp [removeAll, lookup]
    | symlink a t => simp [removeAll, lookup]

theorem mkdirAll_lookup_dir :
    ∀ (p : List String) (perm : Nat) (fs fs2 : Node), mkdirAll p perm fs = some fs2 →
      ∃ m cs, lookup p fs2 = some (Node.dir m cs)
  | [], perm, fs, fs2, h => by
    cases fs with
    | dir m cs =>
      have he : mkdirAll [] perm (Node.dir m cs) = some (Node.dir m cs) := rfl
      rw [he] at h
      injection h with h
      subst h
      exact ⟨m, cs, rfl⟩
    | file _ _ => simp [mkdirAll] at h
    | symlink _ _ => simp [mkdirAll] at h
  | c :: rest, perm, fs, fs2, h => by
    cases fs with
    | dir m cs =>
      unfold mkdirAll at h
      split at h
      next child hlc =>
        split at h
        next child2 hmk =>
          injection h with h
          subst h
          obtain ⟨m2, cs2, hl⟩ := mkdirAll_lookup_dir rest perm child child2 hmk
          exact ⟨m2, cs2, by simp [lookup, lookupChild_setChild_self, hl]⟩
        next => exact absurd h (by simp)
      next hlc =>
        split at h
        next child2 hmk =>
          injection h with h
          subst h
          obtain ⟨m2, cs2, hl⟩ := mkdirAll_lookup_dir rest perm (Node.dir perm []) child2 hmk
          exact ⟨m2, cs2, by simp [lookup, lookupChild_setChild_self, hl]⟩
        next => exact absurd h (by simp)
    | file _ _ => simp [mkdirAll] at h
    | symlink _ _ => simp [mkdirAll] at h

theorem mkdirAll_of_lookup_dir :
    ∀ (p : List String) (perm : Nat) (fs : Node) (m : Nat) (cs : List (String × Node)),
      lookup p fs = some (Node.dir m cs) → mkdirAll p perm fs = some fs
  | [], perm, fs, m, cs, h => by
    simp only [lookup] at h
    injection h with h
    subst h
    rfl
  | c :: rest, perm, fs, m, cs, h => by
    cases fs with
    | dir m2 cs2 =>
      unfold lookup at h
      split at h
      next child hlc =>
        have hrec := mkdirAll_of_lookup_dir rest perm child m cs h
        simp [mkdirAll, hlc, hrec, setChild_eq_of_lookup hlc]
      next => exact absurd h (by simp)
    | file _ _ => simp [lookup] at h
    | symlink _ _ => simp [lookup] at h

theorem chain_of_lookup :
    ∀ (p : List String) (fs n : Node), lookup p fs = some n → p ≠ [] →
      ∃ m cs, lookup p.dropLast fs = some (Node.dir m cs)
  | [], _, _, _, hne => absurd rfl hne
  | [c], fs, n, h, _ => by
    cases fs with
    | dir m cs => exact ⟨m, cs, by simp [List.dropLast_single, lookup]⟩
    | file _ _ => simp [lookup] at h
    | symlink _ _ => simp [lookup] at h
  | c :: d :: rest, fs, n, h, _ => by
    cases fs with
    | dir m cs =>
      unfold lookup at h
      split at h
      next child hlc =>
        obtain ⟨m2, cs2, hl⟩ := chain_of_lookup (d :: rest) child n h (by simp)
        refine ⟨m2, cs2, ?_⟩
        have hd : (c :: d :: rest).dropLast = c :: (d :: rest).dropLast := rfl
        rw [hd]
        simp [lookup, hlc, hl]
      next => exact absurd h (by simp)
    | file _ _ => simp [lookup] at h
    | symlink _ _ => simp [lookup] at h

theorem removeAll_parent_dir :
    ∀ (p : List String) (fs : Node) (m : Nat) (cs : List (String × Node)),
      lookup p.dropLast fs = some (Node.dir m cs) → p ≠ [] →
      ∃ cs2, lookup p.dropLast (removeAll p fs) = some (Node.dir m cs2)
  | [], _, _, _, _, hne => absurd rfl hne
  | [c], fs, m, cs, h, _ => by
    simp only [List.dropLast_single, lookup] at h ⊢
    injection h with h
    subst h
    exact ⟨delChild cs c, by simp [removeAll, lookup]⟩
  | c :: d :: rest, fs, m, cs, h, _ => by
    have hd : (c :: d :: rest).dropLast = c :: (d :: rest).dropLast := rfl
    rw [hd] at h ⊢
    cases fs with
    | dir m2 cs2 =>
      unfold lookup at h
      split at h
      next child hlc =>
        obtain ⟨cs3, hl⟩ := removeAll_parent_dir (d :: rest) child m cs h (by simp)
        unfold removeAll
        simp only [hlc, lookup, lookupChild_setChild_self]
        exact ⟨cs3, hl⟩
      next => exact absurd h (by simp)
    | file _ _ => simp [lookup] at h
    | symlink _ _ => simp [lookup] at h

/-- The path's directory chain is unobstructed: every existing entry along
the path is a directory, so `os.MkdirAll` would succeed. -/
def dirsAlong : List String → Node → Bool
  | [], Node.dir _ _ => true
  | [], _ => false
  | c :: rest, Node.dir _ cs =>
      match lookupChild cs c with
      | some child => dirsAlong rest child
      | none => true
  | _ :: _, _ => false

theorem mkdirAll_into_fresh :
    ∀ (p : List String) (perm perm2 : Nat),
      (mkdirAll p perm (Node.dir perm2 [])).isSome = true
  | [], _, _ => by simp [mkdirAll]
  | c :: rest, perm, perm2 => by
    have hrec := mkdirAll_into_fresh rest perm perm
    unfold mkdirAll
    simp only [lookupChild]
    cases hmk : mkdirAll rest perm (Node.dir perm []) with
    | none => rw [hmk] at hrec; simp at hrec
    | some child2 => simp [hmk]

theorem mkdirAll_isSome_iff :
    ∀ (p : List String) (perm : Nat) (fs : Node),
      (mkdirAll p perm fs).isSome = dirsAlong p fs
  | [], perm, fs => by cases fs <;> simp [mkdirAll, dirsAlong]
  | c :: rest, perm, fs => by
    cases fs with
    | dir m cs =>
      cases hlc : lookupChild cs c with
      | some child =>
        have hrec := mkdirAll_isSome_iff rest perm child
        simp only [mkdirAll, dirsAlong, hlc]
        cases hmk : mkdirAll rest perm child with
        | none =>
          rw [hmk] at hrec
          simp only [Option.isSome_none] at hrec
          simp [← hrec]
        | some child2 =>
          rw [hmk] at hrec
          simp only [Option.isSome_some] at hrec
          simp [← hrec]
      | none =>
        have hfresh := mkdirAll_into_fresh rest perm perm
        simp only [mkdirAll, dirsAlong, hlc]
        cases hmk : mkdirAll rest perm (Node.dir perm []) with
        | none => rw [hmk] at hfresh; simp at hfresh
        | some child2 => simp [hmk]
    | file _ _ => simp [mkdirAll, dirsAlong]
    | symlink _ _ => simp [mkdirAll, dirsAlong]

theorem dirsAlong_setNode_diverge :
    ∀ (p q : List String) (n fs fs2 : Node), diverges p q = true →
      setNode p n fs = some fs2 → dirsAlong q fs2 = dirsAlong q fs
  | [], q, n, fs, fs2, hd, _ => by simp [diverges] at hd
  | _ :: _, [], n, fs, fs2, hd, _ => by simp [diverges] at hd
  | a :: as, b :: bs, n, fs, fs2, hd, h => by
    cases fs with
    | dir m cs =>
      by_cases hab : a = b
      · subst hab
        simp only [diverges, if_pos rfl] at hd
        cases as with
        | nil => simp [diverges] at hd
        | cons a2 as2 =>
          unfold setNode at h
          split at h
          next child hlc =>
            split at h
            next child2 hsn =>
              injection h with h
              subst h
              simp only [dirsAlong, lookupChild_setChild_self, hlc]
              exact dirsAlong_setNode_diverge (a2 :: as2) bs n child child2 hd hsn
            next hsn => exact absurd h (by simp)
          next hlc => exact absurd h (by simp)
      · have hset : ∀ cs2 : List (String × Node),
            fs2 = Node.dir m cs2 → lookupChild cs2 b = lookupChild cs b →
            dirsAlong (b :: bs) fs2 = dirsAlong (b :: bs) (Node.dir m cs) := by
          intro cs2 heq hlc
          subst heq
          simp only [dirsAlong, hlc]
        cases as with
        | nil =>
          have he : setNode [a] n (Node.dir m cs)
              = some (Node.dir m (setChild cs a n)) := rfl
          rw [he] at h
          injection h with h
          exact hset _ h.symm (lookupChild_setChild_ne cs (fun hh => hab hh.symm) n)
        | cons a2 as2 =>
          unfold setNode at h
          split at h
          next child hlc =>
            split at h
            next child2 hsn =>
              injection h with h
              exact hset _ h.symm
                (lookupChild_setChild_ne cs (fun hh => hab hh.symm) child2)
            next hsn => exact absurd h (by simp)
          next hlc => exact absurd h (by simp)
    | file _ _ => cases as <;> simp [setNode] at h
    | symlink _ _ => cases as <;> simp [setNode] at h

theorem dirsAlong_mkdirAll_diverge :
    ∀ (p q : List String) (perm : Nat) (fs fs2 : Node), diverges p q = true →
      mkdirAll p perm fs = some fs2 → dirsAlong q fs2 = dirsAlong q fs
  | [], q, perm, fs, fs2, hd, _ => by simp [diverges] at hd
  | _ :: _, [], perm, fs, fs2, hd, _ => by simp [diverges] at hd
  | a :: as, b :: bs, perm, fs, fs2, hd, h => by
    cases fs with
    | dir m cs =>
      unfold mkdirAll at h
      by_cases hab : a = b
      · subst hab
        simp only [diverges, if_pos rfl] at hd
        split at h
        next child hlc =>
          split at h
          next child2 hmk =>
            injection h with h
            subst h
            simp only [dirsAlong, lookupChild_setChild_self, hlc]
            exact dirsAlong_mkdirAll_diverge as bs perm child child2 hd hmk
          next => exact absurd h (by simp)
        next hlc =>
          split at h
          next child2 hmk =>
            injection h with h
            subst h
            simp only [dirsAlong, lookupChild_setChild_self, hlc]
            have hrec := dirsAlong_mkdirAll_diverge as bs perm (Node.dir perm []) child2 hd hmk
            rw [hrec]
            cases bs with
            | nil => simp [diverges] at hd
            | cons b2 bs2 => simp [dirsAlong, lookupChild]
          next => exact absurd h (by simp)
      · have hset : ∀ cs2 : List (String × Node),
            fs2 = Node.dir m cs2 → lookupChild cs2 b = lookupChild cs b →
            dirsAlong (b :: bs) fs2 = dirsAlong (b :: bs) (Node.dir m cs) := by
          intro cs2 heq hlc
          subst heq
          simp only [dirsAlong, hlc]
        split at h
        next child hlc =>
          split at h
          next child2 hmk =>
            injection h with h
            exact hset _ h.symm
              (lookupChild_setChild_ne cs (fun hh => hab hh.symm) child2)
          next => exact absurd h (by simp)
        next hlc =>
          split at h
          next child2 hmk =>
            injection h with h
            exact hset _ h.symm
              (lookupChild_setChild_ne cs (fun hh => hab hh.symm) child2)
          next => exact absurd h (by simp)
    | file _ _ => simp [mkdirAll] at h
    | symlink _ _ => simp [mkdirAll] at h

theorem diverges_head {a b : String} (as bs : List String) (h : a ≠ b) :
    diverges (a :: as) (b :: bs) = true := by
  simp [diverges, h]

theorem diverges_append :
    ∀ (p q x y : List String), diverges p q = true →
      diverges (p ++ x) (q ++ y) = true
  | a :: as, b :: bs, x, y, hd => by
    by_cases hab : a = b
    · subst hab
      simp only [diverges, if_pos rfl] at hd
      simpa [diverges] using diverges_append as bs x y hd
    · simp [diverges, hab]
  | [], q, _, _, hd => by simp [diverges] at hd
  | _ :: _, [], _, _, hd => by simp [diverges] at hd

/-! ### Relative symlink targets (`filepath.Rel` and its resolution) -/

/-- Segment-wise longest common prefix length, as computed by Go's
`filepath.Rel`. -/
def commonPrefixLen : List String → List String → Nat
  | a :: as, b :: bs => if a = b then commonPrefixLen as bs + 1 else 0
  | _, _ => 0

/-- Go's `filepath.Rel(base, target)` for two absolute cleaned paths (the
only way the restore code calls it): strip the common prefix, one `..` for
each remaining base component, then the remaining target components; `"."`
when the two paths coincide.  The result is by construction never an
absolute path. -/
def relPath (base target : List String) : List String :=
  let n := commonPrefixLen base target
  let ups := List.replicate (base.length - n) ".."
  let rest := target.drop n
  if ups ++ rest = [] then ["."] else ups ++ rest

/-- Resolve a relative component list against an absolute base directory the
way a symlink target is resolved from the link's parent directory: `..` pops
one component, `.` is skipped, a name descends. -/
def resolvePath : List String → List String → List String
  | base, [] => base
  | base, c :: rest =>
      if c = ".." then resolvePath base.dropLast rest
      else if c = "." then resolvePath base rest
      else resolvePath (base ++ [c]) rest

/-- A clean path: no `..` and no `.` components. -/
def cleanPath (p : List String) : Prop := ∀ c ∈ p, c ≠ ".." ∧ c ≠ "."

theorem resolvePath_clean :
    ∀ (rest base : List String), cleanPath rest → resolvePath base rest = base ++ rest
  | [], base, _ => by simp [resolvePath]
  | c :: rs, base, h => by
    have hc := h c (List.mem_cons_self c rs)
    simp only [resolvePath, if_neg hc.1, if_neg hc.2]
    rw [resolvePath_clean rs (base ++ [c]) (fun x hx => h x (List.mem_cons_of_mem c hx))]
    simp

theorem resolvePath_ups :
    ∀ (k : Nat) (base rest : List String), k ≤ base.length → cleanPath rest →
      resolvePath base (List.replicate k ".." ++ rest)
        = base.take (base.length - k) ++ rest
  | 0, base, rest, _, hc => by
    simp [resolvePath_clean rest base hc]
  | k + 1, base, rest, hk, hc => by
    have hrep : List.replicate (k + 1) ".." ++ rest
        = ".." :: (List.replicate k ".." ++ rest) := by
      simp [List.replicate_succ]
    rw [hrep]
    have hstep : resolvePath base (".." :: (List.replicate k ".." ++ rest))
        = resolvePath base.dropLast (List.replicate k ".." ++ rest) := by
      simp [resolvePath]
    rw [hstep]
    rw [resolvePath_ups k base.dropLast rest
      (by simp only [List.length_dropLast]; omega) hc]
    congr 1
    have hlen : base.dropLast.length = base.length - 1 := by simp
    rw [hlen, List.dropLast_eq_take, List.take_take]
    congr 1
    omega

theorem commonPrefixLen_le_left :
    ∀ (a b : List String), commonPrefixLen a b ≤ a.length
  | [], _ => by simp [commonPrefixLen]
  | _ :: _, [] => by simp [commonPrefixLen]
  | a :: as, b :: bs => by
    by_cases h : a = b <;>
      simp [commonPrefixLen, h, Nat.succ_le_succ (commonPrefixLen_le_left as bs)]

theorem commonPrefixLen_le_right :
    ∀ (a b : List String), commonPrefixLen a b ≤ b.length
  | [], _ => by simp [commonPrefixLen]
  | _ :: _, [] => by simp [commonPrefixLen]
  | a :: as, b :: bs => by
    by_cases h : a = b <;>
      simp [commonPrefixLen, h, Nat.succ_le_succ (commonPrefixLen_le_right as bs)]

theorem take_commonPrefixLen_eq :
    ∀ (a b : List String), a.take (commonPrefixLen a b) = b.take (commonPrefixLen a b)
  | [], b => by simp [commonPrefixLen]
  | _ :: _, [] => by simp [commonPrefixLen]
  | a :: as, b :: bs => by
    by_cases h : a = b
    · subst h
      simp [commonPrefixLen, take_commonPrefixLen_eq as bs]
    · simp [commonPrefixLen, h]

/-- Resolving the relative path computed between two clean absolute paths
recovers the target exactly. -/
theorem resolvePath_relPath (base target : List String)
    (ht : cleanPath target) :
    resolvePath base (relPath base target) = target := by
  unfold relPath
  have hn1 : commonPrefixLen base target ≤ base.length := commonPrefixLen_le_left base target
  have hn2 : commonPrefixLen base target ≤ target.length := commonPrefixLen_le_right base target
  have hcrest : cleanPath (target.drop (commonPrefixLen base target)) :=
    fun c hc => ht c (List.drop_subset _ _ hc)
  by_cases hz : List.replicate (base.length - commonPrefixLen base target) ".."
      ++ target.drop (commonPrefixLen base target) = []
  · rw [if_pos hz]
    rcases List.append_eq_nil.mp hz with ⟨hz1, hz2⟩
    have hb1 : base.length = commonPrefixLen base target := by
      have := (List.replicate_eq_nil_iff _).mp hz1
      omega
    have ht1 : target.length = commonPrefixLen base target := by
      have := List.drop_eq_nil_iff.mp hz2
      omega
    have hbt : base = target := by
      have h3 := take_commonPrefixLen_eq base target
      rw [← hb1] at h3
      simp only [List.take_length] at h3
      rw [hb1, ← ht1] at h3
      simp only [List.take_length] at h3
      exact h3
    have : resolvePath base ["."] = base := by
      simp [resolvePath]
    rw [this, hbt]
  · rw [if_neg hz]
    rw [resolvePath_ups (base.length - commonPrefixLen base target) base
      (target.drop (commonPrefixLen base target)) (by omega) hcrest]
    have harith : base.length - (base.length - commonPrefixLen base target)
        = commonPrefixLen base target := by omega
    rw [harith, take_commonPrefixLen_eq base target, List.take_append_drop]

/-! ### The restore engine (`restoreCmd`, `restoreFile`, `restoreAllFiles`)
and `persist add` -/

/-- `copyFile src dst`: open the source, create/truncate the destination,
copy the bytes, and `Chmod` the destination to the source's mode.  Fails when
the source is missing or not a regular file (opening a directory makes the
`io.Copy` fail; a symlink source is out of the modelled corner). -/
def copyFileM (src dst : List String) (fs : Node) : Option Node :=
  match lookup src fs with
  | some (Node.file content mode) => setNode dst (Node.file content mode) fs
  | _ => none

/-- `copyDir src dst` on a fresh destination: `MkdirAll(dst, srcMode)` and
entry-wise recursive copy, modelled by placing `copyTree` of the source. -/
def copyDirM (src dst : List String) (fs : Node) : Option Node :=
  match lookup src fs with
  | some (Node.dir m cs) =>
      match copyTree (Node.dir m cs) with
      | some copied => setNode dst copied fs
      | none => none
  | _ => none

/-- `os.Symlink target dst`: fails if the destination already exists, needs
the parent chain; the stored target of the created link is `relLink`, which is
relative, so `isAbs` is false. -/
def symlinkAt (dst : List String) (relLink : List String) (fs : Node) : Option Node :=
  if (lookup dst fs).isSome then none
  else setNode dst (Node.symlink false relLink) fs

/-- The `--to` flag value: an absolute or worktree-relative destination. -/
structure DestOverride where
  isAbs : Bool
  comps : List String

/-- The restore flags: `--link`, `--to` (empty string modelled as `none`),
`--force`. -/
structure RestoreCfg where
  link : Bool
  toPath : Option DestOverride
  force : Bool

/-- The destination path of `restoreFile`: the `--to` override (joined with
the worktree root unless absolute) or the worktree root joined with the
entry's own relative path. -/
def destAbs (worktreeRoot : List String) (cfg : RestoreCfg)
    (targetPath : List String) : List String :=
  match cfg.toPath with
  | some t => if t.isAbs then t.comps else worktreeRoot ++ t.comps
  | none => worktreeRoot ++ targetPath

def isDirNode : Node → Bool
  | Node.dir _ _ => true
  | _ => false

inductive RErr where
  | notPersisted (p : List String)
  | destinationExists (dest : List String)
  | mkdirFailed
  | symlinkFailed
  | copyFailed
  deriving DecidableEq

/-- `restoreFile(targetPath, sharedDir, worktreeRoot)` with the flag values
in `cfg`, over the filesystem `fs`.  Mirrors the source order: stat the store
entry (error `notPersisted` with the path otherwise), compute the
destination, reject an existing destination unless `--force` (error message
names the path and points at `--force`), create parent directories, then
either remove-and-symlink (`--link`, relative target via `filepath.Rel`) or
remove-and-copy.  The returned node is the filesystem after whatever
mutations happened before the result. -/
def restoreFileM (targetPath sharedDir worktreeRoot : List String)
    (cfg : RestoreCfg) (fs : Node) : Except RErr Unit × Node :=
  match lookup (sharedDir ++ targetPath) fs with
  | none => (Except.error (RErr.notPersisted targetPath), fs)
  | some src =>
    let destPath := destAbs worktreeRoot cfg targetPath
    if (lookup destPath fs).isSome && !cfg.force then
      (Except.error (RErr.destinationExists destPath), fs)
    else
      match mkdirAll destPath.dropLast 493 fs with
      | none => (Except.error RErr.mkdirFailed, fs)
      | some fs1 =>
        if cfg.link then
          let fs2 := if cfg.force then removeAll destPath fs1 else fs1
          match symlinkAt destPath
              (relPath destPath.dropLast (sharedDir ++ targetPath)) fs2 with
          | none => (Except.error RErr.symlinkFailed, fs2)
          | some fs3 => (Except.ok (), fs3)
        else
          let fs2 := if cfg.force then removeAll destPath fs1 else fs1
          match (if isDirNode src then
                   copyDirM (sharedDir ++ targetPath) destPath fs2
                 else
                   copyFileM (sharedDir ++ targetPath) destPath fs2) with
          | none => (Except.error RErr.copyFailed, fs2)
          | some fs3 => (Except.ok (), fs3)

/-- The `filepath.Walk` of `restoreAllFiles`, over the children of a node.
`rel` is the walked directory's path relative to the store root.  An entry
whose relative path has more than one component is ignored by the callback
(`filepath.Dir(relPath) != "."` returns `nil`); a depth-one entry is restored
and, if it is a directory, not descended into (`filepath.SkipDir`).  Hence a
directory subtree below depth one is never entered with the restore action
enabled: every deeper visit would be a `nil` no-op, so walking it leaves the
accumulator unchanged and the model proceeds directly to the next sibling. -/
def restoreWalk (sharedDir worktreeRoot : List String) (cfg : RestoreCfg) :
    Node × Nat × List (List String × RErr) → List String →
    List (String × Node) → Node × Nat × List (List String × RErr)
  | acc, _, [] => acc
  | acc, rel, (name, _) :: rest =>
      let relP := rel ++ [name]
      let acc1 :=
        if relP.length = 1 then
          match restoreFileM relP sharedDir worktreeRoot cfg acc.1 with
          | (Except.ok _, fs2) => (fs2, acc.2.1 + 1, acc.2.2)
          | (Except.error e, fs2) => (fs2, acc.2.1, acc.2.2 ++ [(relP, e)])
        else acc
      restoreWalk sharedDir worktreeRoot cfg acc1 rel rest

inductive RAErr where
  | walkFailed
  | someFailed
  deriving DecidableEq

/-- `restoreAllFiles(sharedDir, worktreeRoot)`: walk the store, restoring
each top-level entry and collecting failures; afterwards report
`someFailed` exactly when the failure list is non-empty.  A missing store
root makes the walk itself fail. -/
def restoreAllFilesM (sharedDir worktreeRoot : List String) (cfg : RestoreCfg)
    (fs : Node) : Except RAErr Unit × Node × Nat × List (List String × RErr) :=
  match lookup sharedDir fs with
  | some (Node.dir _ cs) =>
      let res := restoreWalk sharedDir worktreeRoot cfg (fs, 0, []) [] cs
      if res.2.2.isEmpty then (Except.ok (), res)
      else (Except.error RAErr.someFailed, res)
  | some _ => (Except.ok (), fs, 0, [])
  | none => (Except.error RAErr.walkFailed, fs, 0, [])

inductive CmdErr where
  | conflictingArgs
  | missingArg
  | nothingPersisted
  | fileErr (e : RErr)
  | allErr (e : RAErr)
  deriving DecidableEq

/-- `restoreCmd` after the repository roots are resolved: reject `--all`
together with a path argument, reject neither, then require the shared store
directory to exist (`nothingPersisted` otherwise) before dispatching to the
single-path or bulk restore. -/
def restoreCmdM (arg : Option (List String)) (allFlag : Bool)
    (cfg : RestoreCfg) (sharedDir worktreeRoot : List String) (fs : Node) :
    Except CmdErr Unit × Node :=
  if allFlag ∧ arg.isSome then (Except.error CmdErr.conflictingArgs, fs)
  else if ¬allFlag ∧ arg.isNone then (Except.error CmdErr.missingArg, fs)
  else if (lookup sharedDir fs).isNone then
    (Except.error CmdErr.nothingPersisted, fs)
  else
    match arg, allFlag with
    | _, true =>
      match restoreAllFilesM sharedDir worktreeRoot cfg fs with
      | (Except.ok _, fs2, _, _) => (Except.ok (), fs2)
      | (Except.error e, fs2, _, _) => (Except.error (CmdErr.allErr e), fs2)
    | some p, false =>
      match restoreFileM p sharedDir worktreeRoot cfg fs with
      | (Except.ok _, fs2) => (Except.ok (), fs2)
      | (Except.error e, fs2) => (Except.error (CmdErr.fileErr e), fs2)
    | none, false => (Except.error CmdErr.missingArg, fs)

inductive PErr where
  | sourceNotFound (p : List String)
  | alreadyPersisted (p : List String)
  | mkdirFailed
  | copyFailed
  deriving DecidableEq

/-- The core of `persist add` after root resolution, for a worktree-relative
target path: the source must exist, the store entry must not, parent
directories are created in the store, then the file or directory is copied
(`copyPath` dispatches on the stat). -/
def persistAddM (targetPath sharedDir worktreeRoot : List String)
    (fs : Node) : Except PErr Node :=
  match lookup (worktreeRoot ++ targetPath) fs with
  | none => Except.error (PErr.sourceNotFound targetPath)
  | some src =>
    match lookup (sharedDir ++ targetPath) fs with
    | some _ => Except.error (PErr.alreadyPersisted targetPath)
    | none =>
      match mkdirAll (sharedDir ++ targetPath).dropLast 493 fs with
      | none => Except.error PErr.mkdirFailed
      | some fs1 =>
        match (if isDirNode src then
                 copyDirM (worktreeRoot ++ targetPath) (sharedDir ++ targetPath) fs1
               else
                 copyFileM (worktreeRoot ++ targetPath) (sharedDir ++ targetPath) fs1) with
        | none => Except.error PErr.copyFailed
        | some fs2 => Except.ok fs2

theorem restoreFileM_cases (tp sd wr : List String) (cfg : RestoreCfg) (fs : Node) :
    (lookup (sd ++ tp) fs = none
      ∧ restoreFileM tp sd wr cfg fs = (Except.error (RErr.notPersisted tp), fs))
    ∨ (((lookup (destAbs wr cfg tp) fs).isSome && !cfg.force) = true
      ∧ restoreFileM tp sd wr cfg fs
          = (Except.error (RErr.destinationExists (destAbs wr cfg tp)), fs))
    ∨ (((lookup (destAbs wr cfg tp) fs).isSome && !cfg.force) = false
      ∧ mkdirAll (destAbs wr cfg tp).dropLast 493 fs = none
      ∧ restoreFileM tp sd wr cfg fs = (Except.error RErr.mkdirFailed, fs))
    ∨ (cfg.link = true
      ∧ ((lookup (destAbs wr cfg tp) fs).isSome && !cfg.force) = false
      ∧ ∃ fs1, mkdirAll (destAbs wr cfg tp).dropLast 493 fs = some fs1
        ∧ ((symlinkAt (destAbs wr cfg tp)
              (relPath (destAbs wr cfg tp).dropLast (sd ++ tp))
              (if cfg.force = true then removeAll (destAbs wr cfg tp) fs1 else fs1) = none
            ∧ restoreFileM tp sd wr cfg fs
                = (Except.error RErr.symlinkFailed,
                   if cfg.force = true then removeAll (destAbs wr cfg tp) fs1 else fs1))
          ∨ ∃ fs3, symlinkAt (destAbs wr cfg tp)
              (relPath (destAbs wr cfg tp).dropLast (sd ++ tp))
              (if cfg.force = true then removeAll (destAbs wr cfg tp) fs1 else fs1) = some fs3
            ∧ restoreFileM tp sd wr cfg fs = (Except.ok (), fs3)))
    ∨ (cfg.link = false
      ∧ ((lookup (destAbs wr cfg tp) fs).isSome && !cfg.force) = false
      ∧ ∃ src fs1, lookup (sd ++ tp) fs = some src
        ∧ mkdirAll (destAbs wr cfg tp).dropLast 493 fs = some fs1
        ∧ (((if isDirNode src = true then
                copyDirM (sd ++ tp) (destAbs wr cfg tp)
                  (if cfg.force = true then removeAll (destAbs wr cfg tp) fs1 else fs1)
              else
                copyFileM (sd ++ tp) (destAbs wr cfg tp)
                  (if cfg.force = true then removeAll (destAbs wr cfg tp) fs1 else fs1)) = none
            ∧ restoreFileM tp sd wr cfg fs
                = (Except.error RErr.copyFailed,
                   if cfg.force = true then removeAll (destAbs wr cfg tp) fs1 else fs1))
          ∨ ∃ fs3, (if isDirNode src = true then
                copyDirM (sd ++ tp) (destAbs wr cfg tp)
                  (if cfg.force = true then removeAll (destAbs wr cfg tp) fs1 else fs1)
              else
                copyFileM (sd ++ tp) (destAbs wr cfg tp)
                  (if cfg.force = true then removeAll (destAbs wr cfg tp) fs1 else fs1)) = some fs3
            ∧ restoreFileM tp sd wr cfg fs = (Except.ok (), fs3))) := by
  cases hsrc : lookup (sd ++ tp) fs with
  | none =>
    exact Or.inl ⟨rfl, by simp [restoreFileM, hsrc]⟩
  | some src =>
    by_cases hg : ((lookup (destAbs wr cfg tp) fs).isSome && !cfg.force) = true
    · exact Or.inr (Or.inl ⟨hg, by simp [restoreFileM, hsrc, hg]⟩)
    · rw [Bool.not_eq_true] at hg
      cases hmk : mkdirAll (destAbs wr cfg tp).dropLast 493 fs with
      | none =>
        exact Or.inr (Or.inr (Or.inl ⟨hg, rfl, by simp [restoreFileM, hsrc, hg, hmk]⟩))
      | some fs1 =>
        by_cases hl : cfg.link = true
        · cases hsl : symlinkAt (destAbs wr cfg tp)
              (relPath (destAbs wr cfg tp).dropLast (sd ++ tp))
              (if cfg.force = true then removeAll (destAbs wr cfg tp) fs1 else fs1) with
          | none =>
            refine Or.inr (Or.inr (Or.inr (Or.inl ⟨hl, hg, fs1, rfl, Or.inl ⟨hsl, ?_⟩⟩)))
            simp [restoreFileM, hsrc, hg, hmk, hl, hsl]
          | some fs3 =>
            refine Or.inr (Or.inr (Or.inr (Or.inl ⟨hl, hg, fs1, rfl,
              Or.inr ⟨fs3, hsl, ?_⟩⟩)))
            simp [restoreFileM, hsrc, hg, hmk, hl, hsl]
        · rw [Bool.not_eq_true] at hl
          cases hcp : (if isDirNode src = true then
                copyDirM (sd ++ tp) (destAbs wr cfg tp)
                  (if cfg.force = true then removeAll (destAbs wr cfg tp) fs1 else fs1)
              else
                copyFileM (sd ++ tp) (destAbs wr cfg tp)
                  (if cfg.force = true then removeAll (destAbs wr cfg tp) fs1 else fs1)) with
          | none =>
            refine Or.inr (Or.inr (Or.inr (Or.inr ⟨hl, hg, src, fs1, rfl, rfl,
              Or.inl ⟨hcp, ?_⟩⟩)))
            simp [restoreFileM, hsrc, hg, hmk, hl] at hcp ⊢
            simp [hcp]
          | some fs3 =>
            refine Or.inr (Or.inr (Or.inr (Or.inr ⟨hl, hg, src, fs1, rfl, rfl,
              Or.inr ⟨fs3, hcp, ?_⟩⟩)))
            simp [restoreFileM, hsrc, hg, hmk, hl] at hcp ⊢
            simp [hcp]

theorem copyTree_eq_self : ∀ (n : Node), symlinkFree n = true → copyTree n = some n
  | Node.file c m, _ => by simp [copyTree]
  | Node.symlink a t, h => by simp [symlinkFree] at h
  | Node.dir m [], _ => by simp [copyTree]
  | Node.dir m ((name, c) :: rest), h => by
    rw [symlinkFree, Bool.and_eq_true] at h
    unfold copyTree
    rw [copyTree_eq_self c h.1, copyTree_eq_self (Node.dir m rest) h.2]

theorem copyOp_eq (src : Node) (s d : List String) (fs2 : Node)
    (hsf : symlinkFree src = true) (hls : lookup s fs2 = some src) :
    (if isDirNode src = true then copyDirM s d fs2 else copyFileM s d fs2)
      = setNode d src fs2 := by
  cases src with
  | file c m => simp [isDirNode, copyFileM, hls]
  | dir m cs => simp [isDirNode, copyDirM, hls, copyTree_eq_self _ hsf]
  | symlink a t => simp [symlinkFree] at hsf

/-- C4: every successful link-mode restore creates at the destination a
symbolic link whose stored target is not an absolute path, and resolving
that target against the link's own parent directory yields exactly the
store entry's path — for file and directory store entries alike (the code
takes the same branch for both). -/
theorem C4_link_restore (targetPath sharedDir worktreeRoot : List String)
    (cfg : RestoreCfg) (fs fs3 : Node)
    (hlink : cfg.link = true)
    (hclean : cleanPath (sharedDir ++ targetPath))
    (hne : destAbs worktreeRoot cfg targetPath ≠ [])
    (hok : restoreFileM targetPath sharedDir worktreeRoot cfg fs = (Except.ok (), fs3)) :
    lookup (destAbs worktreeRoot cfg targetPath) fs3
      = some (Node.symlink false
          (relPath (destAbs worktreeRoot cfg targetPath).dropLast
            (sharedDir ++ targetPath)))
    ∧ resolvePath (destAbs worktreeRoot cfg targetPath).dropLast
        (relPath (destAbs worktreeRoot cfg targetPath).dropLast
          (sharedDir ++ targetPath))
      = sharedDir ++ targetPath := by
  rcases restoreFileM_cases targetPath sharedDir worktreeRoot cfg fs with
    ⟨_, heq⟩ | ⟨_, heq⟩ | ⟨_, _, heq⟩ |
    ⟨_, _, fs1, _, ⟨_, heq⟩ | ⟨fs3x, hsl, heq⟩⟩ |
    ⟨hl, _⟩
  · rw [heq] at hok; simp at hok
  · rw [heq] at hok; simp at hok
  · rw [heq] at hok; simp at hok
  · rw [heq] at hok; simp at hok
  · rw [heq] at hok
    have h3 : fs3x = fs3 := by simpa using hok
    subst h3
    unfold symlinkAt at hsl
    by_cases hg2 : (lookup (destAbs worktreeRoot cfg targetPath)
        (if cfg.force = true then removeAll (destAbs worktreeRoot cfg targetPath) fs1
         else fs1)).isSome = true
    · rw [if_pos hg2] at hsl
      simp at hsl
    · rw [if_neg hg2] at hsl
      exact ⟨lookup_setNode_self _ _ _ _ hsl hne,
        resolvePath_relPath (destAbs worktreeRoot cfg targetPath).dropLast
          (sharedDir ++ targetPath) hclean⟩
  · rw [hlink] at hl
    simp at hl

def fsD : Node :=
  Node.dir 493 [("bare", Node.dir 493 [("shared", Node.dir 493
      [("a", Node.file [1] 420)])]), ("wt", Node.dir 493 [])]

def fsD2 : Node :=
  Node.dir 493 [("bare", Node.dir 493 [("shared", Node.dir 493
      [("a", Node.file [1] 420)])]),
    ("wt", Node.dir 493 [("a", Node.symlink false ["..", "bare", "shared", "a"])])]

theorem C4_witness :
    (⟨true, none, false⟩ : RestoreCfg).link = true
    ∧ cleanPath (["bare", "shared"] ++ ["a"])
    ∧ destAbs ["wt"] ⟨true, none, false⟩ ["a"] ≠ []
    ∧ restoreFileM ["a"] ["bare", "shared"] ["wt"] ⟨true, none, false⟩ fsD
      = (Except.ok (), fsD2)
    ∧ (lookup (destAbs ["wt"] ⟨true, none, false⟩ ["a"]) fsD2
        = some (Node.symlink false
            (relPath (destAbs ["wt"] ⟨true, none, false⟩ ["a"]).dropLast
              (["bare", "shared"] ++ ["a"])))
      ∧ resolvePath (destAbs ["wt"] ⟨true, none, false⟩ ["a"]).dropLast
          (relPath (destAbs ["wt"] ⟨true, none, false⟩ ["a"]).dropLast
            (["bare", "shared"] ++ ["a"]))
        = ["bare", "shared"] ++ ["a"]) :=
  ⟨rfl, by unfold cleanPath; decide, by decide, rfl,
   C4_link_restore ["a"] ["bare", "shared"] ["wt"] ⟨true, none, false⟩ fsD fsD2
     rfl (by unfold cleanPath; decide) (by decide) rfl⟩

/-- C5: a restore whose destination already exists fails with the
already-exists error (naming the destination; the source message points at
`--force`) and leaves the filesystem untouched when `force` is false, while
the identical call with `force` true removes the destination and succeeds,
after which the destination reflects the store entry (the copied node in
copy mode, a relative symlink to the entry in link mode). -/
theorem C5_conflict_and_force (p sharedDir worktreeRoot : List String)
    (cfg : RestoreCfg) (fs src d0 : Node)
    (hsrc : lookup (sharedDir ++ p) fs = some src)
    (hsf : symlinkFree src = true)
    (hdest : lookup (destAbs worktreeRoot cfg p) fs = some d0)
    (hne : destAbs worktreeRoot cfg p ≠ [])
    (hdiv : diverges (destAbs worktreeRoot cfg p) (sharedDir ++ p) = true) :
    (cfg.force = false →
      restoreFileM p sharedDir worktreeRoot cfg fs
        = (Except.error (RErr.destinationExists (destAbs worktreeRoot cfg p)), fs))
    ∧ (cfg.force = true →
      ∃ fs3, restoreFileM p sharedDir worktreeRoot cfg fs = (Except.ok (), fs3)
        ∧ (cfg.link = false → lookup (destAbs worktreeRoot cfg p) fs3 = some src)
        ∧ (cfg.link = true → lookup (destAbs worktreeRoot cfg p) fs3
            = some (Node.symlink false
                (relPath (destAbs worktreeRoot cfg p).dropLast (sharedDir ++ p))))) := by
  obtain ⟨m, cs, hchain⟩ := chain_of_lookup (destAbs worktreeRoot cfg p) fs d0 hdest hne
  have hmkeq : mkdirAll (destAbs worktreeRoot cfg p).dropLast 493 fs = some fs :=
    mkdirAll_of_lookup_dir _ 493 fs m cs hchain
  constructor
  · intro hforce
    rcases restoreFileM_cases p sharedDir worktreeRoot cfg fs with
      ⟨h1, _⟩ | ⟨_, heq⟩ | ⟨hg, _, _⟩ |
      ⟨_, hg, _⟩ | ⟨_, hg, _⟩
    · rw [hsrc] at h1; simp at h1
    · exact heq
    · rw [hdest, hforce] at hg; simp at hg
    · rw [hdest, hforce] at hg; simp at hg
    · rw [hdest, hforce] at hg; simp at hg
  · intro hforce
    rcases restoreFileM_cases p sharedDir worktreeRoot cfg fs with
      ⟨h1, _⟩ | ⟨hg, _⟩ | ⟨_, hmk, _⟩ |
      ⟨hl, _, fs1, hmk1, ⟨hsl, _⟩ | ⟨fs3x, hsl, heq⟩⟩ |
      ⟨hl, _, src1, fs1, hsrc1, hmk1, hinner⟩
    · rw [hsrc] at h1; simp at h1
    · rw [hforce] at hg; simp at hg
    · rw [hmkeq] at hmk; simp at hmk
    · rw [hmkeq] at hmk1
      injection hmk1 with hmk1
      subst hmk1
      rw [hforce] at hsl
      simp only [if_pos] at hsl
      unfold symlinkAt at hsl
      rw [lookup_removeAll_self (destAbs worktreeRoot cfg p) fs hne] at hsl
      simp only [Option.isSome_none, Bool.false_eq_true, if_false] at hsl
      obtain ⟨cs2, hpar⟩ := removeAll_parent_dir (destAbs worktreeRoot cfg p) fs m cs hchain hne
      have hss := setNode_isSome_of_parent (destAbs worktreeRoot cfg p)
        (Node.symlink false (relPath (destAbs worktreeRoot cfg p).dropLast (sharedDir ++ p)))
        (removeAll (destAbs worktreeRoot cfg p) fs) m cs2 hpar hne
      rw [hsl] at hss
      simp at hss
    · rw [hmkeq] at hmk1
      injection hmk1 with hmk1
      subst hmk1
      refine ⟨fs3x, heq, ?_, ?_⟩
      · intro hlf
        rw [hlf] at hl
        simp at hl
      · intro _
        rw [hforce] at hsl
        simp only [if_pos] at hsl
        unfold symlinkAt at hsl
        rw [lookup_removeAll_self (destAbs worktreeRoot cfg p) fs hne] at hsl
        simp only [Option.isSome_none, Bool.false_eq_true, if_false] at hsl
        exact lookup_setNode_self _ _ _ _ hsl hne
    · rw [hsrc] at hsrc1
      injection hsrc1 with hsrc1
      subst hsrc1
      rw [hmkeq] at hmk1
      injection hmk1 with hmk1
      subst hmk1
      rw [hforce] at hinner
      simp only [if_pos] at hinner
      have hls2 : lookup (sharedDir ++ p) (removeAll (destAbs worktreeRoot cfg p) fs)
          = some src := by
        rw [lookup_removeAll_diverge (destAbs worktreeRoot cfg p) (sharedDir ++ p) fs hdiv]
        exact hsrc
      rw [copyOp_eq src (sharedDir ++ p) (destAbs worktreeRoot cfg p)
        (removeAll (destAbs worktreeRoot cfg p) fs) hsf hls2] at hinner
      obtain ⟨cs2, hpar⟩ := removeAll_parent_dir (destAbs worktreeRoot cfg p) fs m cs hchain hne
      have hss := setNode_isSome_of_parent (destAbs worktreeRoot cfg p) src
        (removeAll (destAbs worktreeRoot cfg p) fs) m cs2 hpar hne
      rcases hinner with ⟨hcp, _⟩ | ⟨fs3x, hcp, heq⟩
      · rw [hcp] at hss
        simp at hss
      · refine ⟨fs3x, heq, ?_, ?_⟩
        · intro _
          exact lookup_setNode_self _ _ _ _ hcp hne
        · intro hlt
          rw [hlt] at hl
          simp at hl

def fsC5 : Node :=
  Node.dir 493 [("shared", Node.dir 493 [("a", Node.file [7] 420)]),
    ("wt", Node.dir 493 [("a", Node.file [9] 420)])]

theorem C5_witness :
    restoreFileM ["a"] ["shared"] ["wt"] ⟨false, none, false⟩ fsC5
      = (Except.error (RErr.destinationExists
          (destAbs ["wt"] ⟨false, none, false⟩ ["a"])), fsC5)
    ∧ ∃ fs3, restoreFileM ["a"] ["shared"] ["wt"] ⟨false, none, true⟩ fsC5
        = (Except.ok (), fs3)
      ∧ lookup (destAbs ["wt"] ⟨false, none, true⟩ ["a"]) fs3
          = some (Node.file [7] 420) := by
  constructor
  · exact (C5_conflict_and_force ["a"] ["shared"] ["wt"] ⟨false, none, false⟩ fsC5
      (Node.file [7] 420) (Node.file [9] 420) rfl (by simp [symlinkFree]) rfl
      (by decide) (by decide)).1 rfl
  · obtain ⟨fs3, hok, hcopy, _⟩ := (C5_conflict_and_force ["a"] ["shared"] ["wt"]
      ⟨false, none, true⟩ fsC5 (Node.file [7] 420) (Node.file [9] 420)
      rfl (by simp [symlinkFree]) rfl (by decide) (by decide)).2 rfl
    exact ⟨fs3, hok, hcopy rfl⟩

theorem diverges_symm : ∀ (p q : List String), diverges p q = diverges q p
  | [], [] => rfl
  | [], _ :: _ => by simp [diverges]
  | _ :: _, [] => by simp [diverges]
  | a :: as, b :: bs => by
    by_cases h : a = b
    · subst h
      simp [diverges, diverges_symm as bs]
    · simp [diverges, h, Ne.symm h]

/-- C3: the persist/restore round trip.  Persisting the file with content
`C` and permission bits `M` at relative path `p` of worktree `wt1`, then
restoring `p` in copy mode into a second worktree `wt2` where `p` does not
yet exist, yields a regular file at `wt2 ++ p` whose content is exactly `C`
and whose permission bits are exactly `M`. -/
theorem C3_round_trip (p sharedDir wt1 wt2 : List String)
    (C : List Nat) (M : Nat) (fs : Node)
    (hp : p ≠ [])
    (hsrc : lookup (wt1 ++ p) fs = some (Node.file C M))
    (hnotS : lookup (sharedDir ++ p) fs = none)
    (hnotW : lookup (wt2 ++ p) fs = none)
    (hd1 : diverges sharedDir wt1 = true)
    (hd2 : diverges sharedDir wt2 = true)
    (hdirS : dirsAlong (sharedDir ++ p).dropLast fs = true)
    (hdirW : dirsAlong (wt2 ++ p).dropLast fs = true) :
    ∃ fs2 fs3,
      persistAddM p sharedDir wt1 fs = Except.ok fs2
      ∧ restoreFileM p sharedDir wt2 ⟨false, none, false⟩ fs2 = (Except.ok (), fs3)
      ∧ lookup (wt2 ++ p) fs3 = some (Node.file C M) := by
  have hdl : ∀ (r : List String), (r ++ p).dropLast = r ++ p.dropLast := by
    intro r
    exact List.dropLast_append_of_ne_nil r hp
  have hneSP : sharedDir ++ p ≠ [] := by
    intro hcontra
    exact hp (List.append_eq_nil.mp hcontra).2
  have hneWP : wt2 ++ p ≠ [] := by
    intro hcontra
    exact hp (List.append_eq_nil.mp hcontra).2
  have dS1 : diverges (sharedDir ++ p).dropLast (wt1 ++ p) = true := by
    rw [hdl sharedDir]
    exact diverges_append _ _ _ _ hd1
  have dS2 : diverges (sharedDir ++ p).dropLast (wt2 ++ p) = true := by
    rw [hdl sharedDir]
    exact diverges_append _ _ _ _ hd2
  have dS3 : diverges (sharedDir ++ p) (wt2 ++ p) = true :=
    diverges_append _ _ _ _ hd2
  have dS4 : diverges (sharedDir ++ p).dropLast (wt2 ++ p).dropLast = true := by
    rw [hdl sharedDir, hdl wt2]
    exact diverges_append _ _ _ _ hd2
  have dS5 : diverges (sharedDir ++ p) (wt2 ++ p).dropLast = true := by
    rw [hdl wt2]
    exact diverges_append _ _ _ _ hd2
  have hd2s : diverges wt2 sharedDir = true := by
    rw [diverges_symm]
    exact hd2
  have dW1 : diverges (wt2 ++ p).dropLast (sharedDir ++ p) = true := by
    rw [hdl wt2]
    exact diverges_append _ _ _ _ hd2s
  have hmk1ex : (mkdirAll (sharedDir ++ p).dropLast 493 fs).isSome = true := by
    rw [mkdirAll_isSome_iff]
    exact hdirS
  obtain ⟨fs1, hmk1⟩ := Option.isSome_iff_exists.mp hmk1ex
  have hlook1 : lookup (wt1 ++ p) fs1 = some (Node.file C M) :=
    (lookup_mkdirAll_diverge _ _ 493 fs fs1 dS1 hmk1).trans hsrc
  obtain ⟨mS, csS, hparS⟩ := mkdirAll_lookup_dir _ 493 fs fs1 hmk1
  have hset1ex := setNode_isSome_of_parent (sharedDir ++ p) (Node.file C M) fs1
    mS csS hparS hneSP
  obtain ⟨fs2, hset1⟩ := Option.isSome_iff_exists.mp hset1ex
  have hcpy1 : copyFileM (wt1 ++ p) (sharedDir ++ p) fs1
      = setNode (sharedDir ++ p) (Node.file C M) fs1 := by
    simpa using copyOp_eq (Node.file C M) (wt1 ++ p) (sharedDir ++ p) fs1
      (by simp [symlinkFree]) hlook1
  have hper : persistAddM p sharedDir wt1 fs = Except.ok fs2 := by
    simp [persistAddM, hsrc, hnotS, hmk1, hcpy1, hset1, isDirNode]
  have hlookS2 : lookup (sharedDir ++ p) fs2 = some (Node.file C M) :=
    lookup_setNode_self _ _ fs1 fs2 hset1 hneSP
  have hW2none : lookup (wt2 ++ p) fs2 = none :=
    (lookup_setNode_diverge _ _ _ fs1 fs2 dS3 hset1).trans
      ((lookup_mkdirAll_diverge _ _ 493 fs fs1 dS2 hmk1).trans hnotW)
  have hdirW2 : dirsAlong (wt2 ++ p).dropLast fs2 = true :=
    (dirsAlong_setNode_diverge _ _ _ fs1 fs2 dS5 hset1).trans
      ((dirsAlong_mkdirAll_diverge _ _ 493 fs fs1 dS4 hmk1).trans hdirW)
  have hmk2ex : (mkdirAll (wt2 ++ p).dropLast 493 fs2).isSome = true := by
    rw [mkdirAll_isSome_iff]
    exact hdirW2
  obtain ⟨fsa, hmk2⟩ := Option.isSome_iff_exists.mp hmk2ex
  have hlookSa : lookup (sharedDir ++ p) fsa = some (Node.file C M) :=
    (lookup_mkdirAll_diverge _ _ 493 fs2 fsa dW1 hmk2).trans hlookS2
  obtain ⟨mW, csW, hparW⟩ := mkdirAll_lookup_dir _ 493 fs2 fsa hmk2
  have hset2ex := setNode_isSome_of_parent (wt2 ++ p) (Node.file C M) fsa
    mW csW hparW hneWP
  obtain ⟨fs3, hset2⟩ := Option.isSome_iff_exists.mp hset2ex
  have hcpy2 : copyFileM (sharedDir ++ p) (wt2 ++ p) fsa
      = setNode (wt2 ++ p) (Node.file C M) fsa := by
    simpa using copyOp_eq (Node.file C M) (sharedDir ++ p) (wt2 ++ p) fsa
      (by simp [symlinkFree]) hlookSa
  have hres : restoreFileM p sharedDir wt2 ⟨false, none, false⟩ fs2
      = (Except.ok (), fs3) := by
    simp [restoreFileM, destAbs, hlookS2, hW2none, hmk2, hcpy2, hset2, isDirNode]
  exact ⟨fs2, fs3, hper, hres, lookup_setNode_self _ _ fsa fs3 hset2 hneWP⟩

def fsC3 : Node :=
  Node.dir 493 [("shared", Node.dir 493 []),
    ("wt1", Node.dir 493 [("a", Node.file [3] 420)]),
    ("wt2", Node.dir 493 [])]

theorem C3_witness :
    ∃ fs2 fs3,
      persistAddM ["a"] ["shared"] ["wt1"] fsC3 = Except.ok fs2
      ∧ restoreFileM ["a"] ["shared"] ["wt2"] ⟨false, none, false⟩ fs2
          = (Except.ok (), fs3)
      ∧ lookup (["wt2"] ++ ["a"]) fs3 = some (Node.file [3] 420) :=
  C3_round_trip ["a"] ["shared"] ["wt1"] ["wt2"] [3] 420 fsC3
    (by decide) rfl rfl rfl (by decide) (by decide) (by decide) (by decide)

/-- One top-level step of the `restoreAllFiles` walk: restore the entry and
either bump the success count or append the (path, error) pair. -/
def restoreStep (sharedDir worktreeRoot : List String) (cfg : RestoreCfg)
    (acc : Node × Nat × List (List String × RErr)) (e : String × Node) :
    Node × Nat × List (List String × RErr) :=
  match restoreFileM [e.1] sharedDir worktreeRoot cfg acc.1 with
  | (Except.ok _, fs2) => (fs2, acc.2.1 + 1, acc.2.2)
  | (Except.error er, fs2) => (fs2, acc.2.1, acc.2.2 ++ [([e.1], er)])

theorem restoreWalk_toplevel (sd wr : List String) (cfg : RestoreCfg) :
    ∀ (cs : List (String × Node)) (acc : Node × Nat × List (List String × RErr)),
      restoreWalk sd wr cfg acc [] cs = cs.foldl (restoreStep sd wr cfg) acc
  | [], acc => rfl
  | (name, node) :: rest, acc => by
    rw [List.foldl_cons, ← restoreWalk_toplevel sd wr cfg rest]
    cases hr : restoreFileM [name] sd wr cfg acc.1 with
    | mk r fs2 =>
      cases r with
      | ok u => simp [restoreWalk, restoreStep, hr]
      | error er => simp [restoreWalk, restoreStep, hr]

theorem restoreFold_counts (sd wr : List String) (cfg : RestoreCfg) :
    ∀ (cs : List (String × Node)) (acc : Node × Nat × List (List String × RErr)),
      (cs.foldl (restoreStep sd wr cfg) acc).2.1
        + (cs.foldl (restoreStep sd wr cfg) acc).2.2.length
        = acc.2.1 + acc.2.2.length + cs.length
  | [], acc => by simp
  | e :: rest, acc => by
    rw [List.foldl_cons, restoreFold_counts sd wr cfg rest (restoreStep sd wr cfg acc e)]
    cases hr : restoreFileM [e.1] sd wr cfg acc.1 with
    | mk r fs2 =>
      cases r with
      | ok u =>
        simp [restoreStep, hr]
        omega
      | error er =>
        simp [restoreStep, hr]
        omega

theorem restoreFold_errs (sd wr : List String) (cfg : RestoreCfg) :
    ∀ (cs : List (String × Node)) (acc : Node × Nat × List (List String × RErr))
      (x : List String × RErr), x ∈ (cs.foldl (restoreStep sd wr cfg) acc).2.2 →
      x ∈ acc.2.2 ∨ ∃ e, e ∈ cs ∧ ∃ er, x = ([e.1], er)
  | [], acc, x, hx => Or.inl hx
  | e :: rest, acc, x, hx => by
    rw [List.foldl_cons] at hx
    rcases restoreFold_errs sd wr cfg rest (restoreStep sd wr cfg acc e) x hx with
      h | ⟨e2, he2, er, hxe⟩
    · cases hr : restoreFileM [e.1] sd wr cfg acc.1 with
      | mk r fs2 =>
        cases r with
        | ok u =>
          simp [restoreStep, hr] at h
          exact Or.inl h
        | error er2 =>
          simp [restoreStep, hr] at h
          rcases h with h | h
          · exact Or.inl h
          · exact Or.inr ⟨e, List.mem_cons_self e rest, er2, by simp [h]⟩
    · exact Or.inr ⟨e2, List.mem_cons_of_mem e he2, er, hxe⟩

/-- C6: bulk restore over a store walks every top-level entry without
aborting: the final state is the left fold of the per-entry restore steps
over all entries (so successful restorations are kept, not rolled back),
the success count and the collected failures together account for every
entry, every collected failure names a top-level entry path paired with its
error, and the overall result is an error precisely when the failure list
is nonempty. -/
theorem C6_restore_all_continues (sharedDir worktreeRoot : List String)
    (cfg : RestoreCfg) (fs : Node) (m : Nat) (cs : List (String × Node))
    (hstore : lookup sharedDir fs = some (Node.dir m cs)) :
    ∃ fsF n errs,
      (fsF, n, errs) = cs.foldl (restoreStep sharedDir worktreeRoot cfg) (fs, 0, [])
      ∧ restoreAllFilesM sharedDir worktreeRoot cfg fs
          = ((if errs.isEmpty then Except.ok () else Except.error RAErr.someFailed),
             fsF, n, errs)
      ∧ n + errs.length = cs.length
      ∧ ∀ x ∈ errs, ∃ e, e ∈ cs ∧ ∃ er, x = ([e.1], er) := by
  have hwalk := restoreWalk_toplevel sharedDir worktreeRoot cfg cs (fs, 0, [])
  refine ⟨(cs.foldl (restoreStep sharedDir worktreeRoot cfg) (fs, 0, [])).1,
    (cs.foldl (restoreStep sharedDir worktreeRoot cfg) (fs, 0, [])).2.1,
    (cs.foldl (restoreStep sharedDir worktreeRoot cfg) (fs, 0, [])).2.2,
    rfl, ?_, ?_, ?_⟩
  · by_cases he :
      ((cs.foldl (restoreStep sharedDir worktreeRoot cfg) (fs, 0, [])).2.2).isEmpty
    · simp [restoreAllFilesM, hstore, hwalk, he]
    · simp [restoreAllFilesM, hstore, hwalk, he]
  · simpa using restoreFold_counts sharedDir worktreeRoot cfg cs (fs, 0, [])
  · intro x hx
    rcases restoreFold_errs sharedDir worktreeRoot cfg cs (fs, 0, []) x hx with h | h
    · simp at h
    · exact h

def fsC6 : Node :=
  Node.dir 493 [("shared", Node.dir 493
      [("a", Node.file [1] 420), ("b", Node.file [2] 420)]),
    ("wt", Node.dir 493 [("a", Node.file [9] 420)])]

theorem C6_witness :
    ∃ fsF n errs,
      (fsF, n, errs) = [("a", Node.file [1] 420), ("b", Node.file [2] 420)].foldl
          (restoreStep ["shared"] ["wt"] ⟨false, none, false⟩) (fsC6, 0, [])
      ∧ restoreAllFilesM ["shared"] ["wt"] ⟨false, none, false⟩ fsC6
          = ((if errs.isEmpty then Except.ok () else Except.error RAErr.someFailed),
             fsF, n, errs)
      ∧ n + errs.length
          = ([("a", Node.file [1] 420), ("b", Node.file [2] 420)]
              : List (String × Node)).length
      ∧ ∀ x ∈ errs, ∃ e, e ∈ ([("a", Node.file [1] 420), ("b", Node.file [2] 420)]
          : List (String × Node)) ∧ ∃ er, x = ([e.1], er) :=
  C6_restore_all_continues ["shared"] ["wt"] ⟨false, none, false⟩ fsC6 493
    [("a", Node.file [1] 420), ("b", Node.file [2] 420)] rfl

def fsC7 : Node :=
  Node.dir 493 [("shared", Node.dir 493 [("a", Node.file [5] 420)]),
    ("wt", Node.dir 493 [])]

/-- C7 counterexample: with a destination override in effect (`--to custom`),
bulk restore does not place the single store entry `a` at `wt/a`; it places
it at the override destination `wt/custom`, because `restoreAllFiles`
forwards the global `restoreTo` setting to each `restoreFile` call. -/
theorem C7_counterexample :
    ∃ fsF n errs,
      restoreAllFilesM ["shared"] ["wt"] ⟨false, some ⟨false, ["custom"]⟩, false⟩ fsC7
        = (Except.ok (), fsF, n, errs)
      ∧ lookup ["wt", "a"] fsF = none
      ∧ lookup ["wt", "custom"] fsF = some (Node.file [5] 420) := by
  have hwres : restoreWalk ["shared"] ["wt"] ⟨false, some ⟨false, ["custom"]⟩, false⟩
      (fsC7, 0, []) [] [("a", Node.file [5] 420)]
      = (Node.dir 493 [("shared", Node.dir 493 [("a", Node.file [5] 420)]),
          ("wt", Node.dir 493 [("custom", Node.file [5] 420)])], 1, []) := by
    rw [restoreWalk_toplevel]
    rfl
  have h0 : restoreAllFilesM ["shared"] ["wt"]
      ⟨false, some ⟨false, ["custom"]⟩, false⟩ fsC7
      = (if (restoreWalk ["shared"] ["wt"] ⟨false, some ⟨false, ["custom"]⟩, false⟩
            (fsC7, 0, []) [] [("a", Node.file [5] 420)]).2.2.isEmpty
         then (Except.ok (), restoreWalk ["shared"] ["wt"]
            ⟨false, some ⟨false, ["custom"]⟩, false⟩
            (fsC7, 0, []) [] [("a", Node.file [5] 420)])
         else (Except.error RAErr.someFailed, restoreWalk ["shared"] ["wt"]
            ⟨false, some ⟨false, ["custom"]⟩, false⟩
            (fsC7, 0, []) [] [("a", Node.file [5] 420)])) := rfl
  rw [hwres] at h0
  exact ⟨Node.dir 493 [("shared", Node.dir 493 [("a", Node.file [5] 420)]),
    ("wt", Node.dir 493 [("custom", Node.file [5] 420)])], 1, [],
    by simpa using h0, rfl, rfl⟩

/-- C7 (amended): bulk restore restores exactly the top-level entries of
the store, each in a single `restoreFile` call (a persisted directory is
handled as one unit, with no recursion into it) — but each call receives
the shared configuration including the destination override, so the
per-entry destination is `destAbs`, which equals the worktree root joined
with the entry's own relative path only when no override is in effect. -/
theorem C7_toplevel_units (sharedDir worktreeRoot : List String)
    (cfg : RestoreCfg) (fs : Node) (m : Nat) (cs : List (String × Node))
    (hstore : lookup sharedDir fs = some (Node.dir m cs)) :
    restoreAllFilesM sharedDir worktreeRoot cfg fs
      = (let res := cs.foldl (restoreStep sharedDir worktreeRoot cfg) (fs, 0, []);
         if res.2.2.isEmpty then (Except.ok (), res)
         else (Except.error RAErr.someFailed, res))
    ∧ (cfg.toPath = none →
        ∀ q, destAbs worktreeRoot cfg q = worktreeRoot ++ q) := by
  constructor
  · have hwalk := restoreWalk_toplevel sharedDir worktreeRoot cfg cs (fs, 0, [])
    simp [restoreAllFilesM, hstore, hwalk]
  · intro h q
    simp [destAbs, h]

theorem C7_witness :
    restoreAllFilesM ["shared"] ["wt"] ⟨false, none, false⟩ fsC7
      = (let res := [("a", Node.file [5] 420)].foldl
            (restoreStep ["shared"] ["wt"] ⟨false, none, false⟩) (fsC7, 0, []);
         if res.2.2.isEmpty then (Except.ok (), res)
         else (Except.error RAErr.someFailed, res))
    ∧ ((⟨false, none, false⟩ : RestoreCfg).toPath = none →
        ∀ q, destAbs ["wt"] ⟨false, none, false⟩ q = ["wt"] ++ q) :=
  C7_toplevel_units ["shared"] ["wt"] ⟨false, none, false⟩ fsC7 493
    [("a", Node.file [5] 420)] rfl

/-- C10: a single-path restore is guarded by store existence exactly like
bulk restore: when the shared directory does not exist, `restoreCmd` fails
with the no-persisted-files error and the filesystem is untouched, for
every target path and configuration. -/
theorem C10_store_guard (p sharedDir worktreeRoot : List String)
    (cfg : RestoreCfg) (fs : Node)
    (h : lookup sharedDir fs = none) :
    restoreCmdM (some p) false cfg sharedDir worktreeRoot fs
      = (Except.error CmdErr.nothingPersisted, fs) := by
  simp [restoreCmdM, h]

theorem C10_witness :
    lookup ["shared"] (Node.dir 493 [("wt", Node.dir 493 [])]) = none
    ∧ restoreCmdM (some ["a"]) false ⟨false, none, false⟩ ["shared"] ["wt"]
        (Node.dir 493 [("wt", Node.dir 493 [])])
      = (Except.error CmdErr.nothingPersisted,
         Node.dir 493 [("wt", Node.dir 493 [])]) :=
  ⟨rfl, C10_store_guard ["a"] ["shared"] ["wt"] ⟨false, none, false⟩
    (Node.dir 493 [("wt", Node.dir 493 [])]) rfl⟩
